import Mathlib

/-!
# A verification development for the `my-mini-dom` event/tree core

Shallow embedding of `src/my-mini-dom.js`: the `EventTarget` listener
registry and three-phase dispatch algorithm, the `Event` propagation-state
object, and the `Node` tree-mutation operations.

Modelling conventions:
* Nodes are identified by natural numbers.  The listener registry of the
  whole object graph is one function `Regs : Nat → String → List Registration`
  (per node, per event type an ordered list, default `[]`, which behaves
  exactly like the JS `this._listeners[type]` being `undefined`).
* A JS listener callback is identified by a `lid : Nat` (playing the role of
  the function reference compared with `===` in `removeEventListener`) and
  its behaviour is a syntactic action `Act`: it can do nothing, call the
  `Event` methods `stopPropagation` / `stopImmediatePropagation` /
  `preventDefault`, add or remove listeners, throw, or sequence those.
* Dispatch threads a `DState`: the live registry, the event's mutable
  state, an invocation `trace` recording `(phase, node, lid)` each time a
  callback is invoked, and the `errlog` of messages sent to `console.error`.
* The tree is a heap `Nat → NodeData` with `parentNode : Option Nat` and
  `childNodes : List Nat`; the mutating operations return `Except String`
  mirroring the `throw new Error(...)` paths of the source.
-/

namespace MiniDom

/-- Behaviour language for listener callbacks.  `addL node ty lid a cap once`
models the callback invoking `addEventListener` on `node`, registering
callback `lid` with behaviour `a`; `removeL` likewise for
`removeEventListener`; `throwErr m` models the callback throwing;
`seq` sequences two behaviours (a throw aborts the rest). -/
inductive Act : Type where
  | skip : Act
  | stopProp : Act
  | stopImmediate : Act
  | prevDefault : Act
  | throwErr : String → Act
  | addL : Nat → String → Nat → Act → Bool → Bool → Act
  | removeL : Nat → String → Nat → Bool → Act
  | seq : Act → Act → Act
deriving DecidableEq

/-- One entry of `this._listeners[type]`: the JS object
`{ listener, capture, once }` pushed by `addEventListener`
(`lid` stands for the function reference, `act` for its code). -/
structure Registration where
  lid : Nat
  act : Act
  capture : Bool
  once : Bool
deriving DecidableEq

/-- The `Event` object: constructor-time configuration (`type`, `bubbles`,
`cancelable`) and the mutable internal state (`_target`, `_currentTarget`,
`_phase`, `_propagationStopped`, `_immediatePropagationStopped`,
`defaultPrevented`). -/
structure EvState where
  type : String
  bubbles : Bool
  cancelable : Bool
  target : Option Nat
  currentTarget : Option Nat
  phase : Nat
  propagationStopped : Bool
  immediatePropagationStopped : Bool
  defaultPrevented : Bool
deriving DecidableEq

/-- `Event.NONE` -/
def Event.NONE : Nat := 0
/-- `Event.CAPTURING_PHASE` -/
def Event.CAPTURING_PHASE : Nat := 1
/-- `Event.AT_TARGET` -/
def Event.AT_TARGET : Nat := 2
/-- `Event.BUBBLING_PHASE` -/
def Event.BUBBLING_PHASE : Nat := 3

/-- `new Event(type, { bubbles, cancelable })`: configuration stored,
all internal state starts clean. -/
def mkEvent (ty : String) (bubbles cancelable : Bool) : EvState :=
  { type := ty, bubbles := bubbles, cancelable := cancelable,
    target := none, currentTarget := none, phase := Event.NONE,
    propagationStopped := false, immediatePropagationStopped := false,
    defaultPrevented := false }

/-- `Event.prototype.stopPropagation`. -/
def EvState.stopPropagation (e : EvState) : EvState :=
  { e with propagationStopped := true }

/-- `Event.prototype.stopImmediatePropagation`: sets both stop flags. -/
def EvState.stopImmediatePropagation (e : EvState) : EvState :=
  { e with propagationStopped := true, immediatePropagationStopped := true }

/-- `Event.prototype.preventDefault`: only effective when `cancelable`. -/
def EvState.preventDefault (e : EvState) : EvState :=
  if e.cancelable then { e with defaultPrevented := true } else e

/-- The listener registries of all nodes: per node and event type the
ordered registration list (`[]` when the JS slot is `undefined`). -/
abbrev Regs := Nat → String → List Registration

/-- `EventTarget.prototype.addEventListener` (after options normalisation):
pushes `{ listener, capture, once }` onto `this._listeners[type]`. -/
def addEventListener (regs : Regs) (node : Nat) (ty : String)
    (lid : Nat) (a : Act) (capture once : Bool) : Regs :=
  fun n t =>
    if n = node ∧ t = ty then regs n t ++ [⟨lid, a, capture, once⟩]
    else regs n t

/-- `EventTarget.prototype.removeEventListener` (after options
normalisation): keeps the entries that do not match
`entry.listener === listener && entry.capture === capture`. -/
def removeEventListener (regs : Regs) (node : Nat) (ty : String)
    (lid : Nat) (capture : Bool) : Regs :=
  fun n t =>
    if n = node ∧ t = ty then
      (regs n t).filter (fun entry => !(entry.lid == lid && entry.capture == capture))
    else regs n t

/-- The state threaded through a dispatch: the live registries, the event's
mutable state, the invocation `trace` (each invoked callback contributes
`(phase, node, lid)`), and the messages reported to `console.error`. -/
structure DState where
  regs : Regs
  ev : EvState
  trace : List (Nat × Nat × Nat)
  errlog : List String

/-- Interpretation of a callback behaviour: returns the new state and
`some msg` when the callback threw (the remainder of a `seq` after a throw
does not run). -/
def runAct : Act → DState → DState × Option String
  | .skip, s => (s, none)
  | .stopProp, s => ({ s with ev := s.ev.stopPropagation }, none)
  | .stopImmediate, s => ({ s with ev := s.ev.stopImmediatePropagation }, none)
  | .prevDefault, s => ({ s with ev := s.ev.preventDefault }, none)
  | .throwErr msg, s => (s, some msg)
  | .addL n ty lid a cap once, s =>
      ({ s with regs := addEventListener s.regs n ty lid a cap once }, none)
  | .removeL n ty lid cap, s =>
      ({ s with regs := removeEventListener s.regs n ty lid cap }, none)
  | .seq a b, s =>
      match runAct a s with
      | (s', none) => runAct b s'
      | (s', some m) => (s', some m)

/-- The `try { ... } catch (e) { console.error('Error in event listener:', e) }`
boundary around one callback invocation: a thrown error is appended to the
log and swallowed. -/
def reportCaught (out : DState × Option String) : DState :=
  match out with
  | (s3, none) => s3
  | (s3, some m) => { s3 with errlog := s3.errlog ++ ["Error in event listener: " ++ m] }

/-- `EventTarget.prototype._executeListner` (source spelling): when
`entry.once`, first remove the entry from the live registry of `this`;
then invoke the callback inside the `try`/`catch` boundary. -/
def executeListner (this : Nat) (entry : Registration) (s : DState) : DState :=
  let s1 :=
    if entry.once then
      { s with regs := removeEventListener s.regs this s.ev.type entry.lid entry.capture }
    else s
  let s2 := { s1 with trace := s1.trace ++ [(s1.ev.phase, this, entry.lid)] }
  reportCaught (runAct entry.act s2)

/-- The capture-flag filter of the two invocation loops: `some fc` is the
`entry.capture !== forCapture → continue` test of `_invokeListeners`; `none`
is `_invokeListenersAtTarget`, which invokes every entry. -/
def phaseMatches (forCapture : Option Bool) (entry : Registration) : Bool :=
  match forCapture with
  | some fc => entry.capture == fc
  | none => true

/-- The `for (const entry of [...listeners])` loop shared by
`_invokeListeners` and `_invokeListenersAtTarget`: iterate the snapshot,
skip filtered entries, and `break` when
`event._immediatePropagationStopped` is set after an invocation. -/
def invokeLoop (this : Nat) (forCapture : Option Bool) :
    List Registration → DState → DState
  | [], s => s
  | entry :: rest, s =>
      if phaseMatches forCapture entry then
        let s' := executeListner this entry s
        if s'.ev.immediatePropagationStopped then s'
        else invokeLoop this forCapture rest s'
      else invokeLoop this forCapture rest s

/-- `EventTarget.prototype._invokeListeners`: snapshot
`this._listeners[event.type]` (the spread `[...listeners]`) and run the
loop keeping only entries with `entry.capture === forCapture`. -/
def invokeListeners (this : Nat) (forCapture : Bool) (s : DState) : DState :=
  invokeLoop this (some forCapture) (s.regs this s.ev.type) s

/-- `EventTarget.prototype._invokeListenersAtTarget`: snapshot and run the
loop over every entry regardless of capture flag. -/
def invokeListenersAtTarget (this : Nat) (s : DState) : DState :=
  invokeLoop this none (s.regs this s.ev.type) s

/-- The `while (current) { path.unshift(current); current = current.parentNode }`
path computation, root first, ending at the start node; `fuel` bounds the
ancestor-chain length walked (any `fuel ≥` the node's depth is exact). -/
def computePath (parent : Nat → Option Nat) : Nat → Nat → List Nat
  | 0, n => [n]
  | fuel + 1, n =>
      match parent n with
      | none => [n]
      | some p => computePath parent fuel p ++ [n]

/-- The capture-phase loop of `dispatchEvent`: for each non-target path
member root-to-target, `break` on `event._propagationStopped`, else set
`currentTarget` and invoke its capture listeners. -/
def captureLoop : List Nat → DState → DState
  | [], s => s
  | n :: rest, s =>
      if s.ev.propagationStopped then s
      else
        let s' := invokeListeners n true { s with ev := { s.ev with currentTarget := some n } }
        captureLoop rest s'

/-- The bubble-phase loop of `dispatchEvent`: same shape, target-to-root,
non-capture listeners. -/
def bubbleLoop : List Nat → DState → DState
  | [], s => s
  | n :: rest, s =>
      if s.ev.propagationStopped then s
      else
        let s' := invokeListeners n false { s with ev := { s.ev with currentTarget := some n } }
        bubbleLoop rest s'

/-- The target-phase statement of `dispatchEvent`: if propagation was not
stopped, set `phase`/`currentTarget` and invoke all listeners on the
target. -/
def targetStep (this : Nat) (s2 : DState) : DState :=
  if s2.ev.propagationStopped then s2
  else
    invokeListenersAtTarget this
      { s2 with ev := { s2.ev with phase := Event.AT_TARGET, currentTarget := some this } }

/-- The bubble-phase statement of `dispatchEvent`: only if propagation was
not stopped and the event bubbles, walk the non-target path members
target-to-root. -/
def bubbleStep (path : List Nat) (s3 : DState) : DState :=
  if !s3.ev.propagationStopped && s3.ev.bubbles then
    bubbleLoop path.dropLast.reverse
      { s3 with ev := { s3.ev with phase := Event.BUBBLING_PHASE } }
  else s3

/-- `EventTarget.prototype.dispatchEvent`: set `event._target`, compute the
path, run the capture phase over all path members but the last, the target
phase if propagation was not stopped, the bubble phase if additionally
`event.bubbles`, and return `!event.defaultPrevented`. -/
def dispatchEvent (parent : Nat → Option Nat) (fuel : Nat) (this : Nat)
    (s : DState) : DState × Bool :=
  let path := computePath parent fuel this
  let s1 := { s with ev := { s.ev with target := some this, phase := Event.CAPTURING_PHASE } }
  let s2 := captureLoop path.dropLast s1
  let s3 := targetStep this s2
  let s4 := bubbleStep path s3
  (s4, !s4.ev.defaultPrevented)

/-! ## The node tree (`Node` and its mutation operations) -/

/-- The per-node tree data of a `Node` object: `parentNode` and the
`childNodes` array (children identified by node id). -/
structure NodeData where
  parentNode : Option Nat
  childNodes : List Nat
deriving DecidableEq

/-- The object heap of the tree: every node id maps to its tree data
(ids never created map to a detached, childless node). -/
abbrev Heap := Nat → NodeData

/-- Pointwise heap update. -/
def hupdate (h : Heap) (n : Nat) (d : NodeData) : Heap :=
  fun m => if m = n then d else h m

/-- `node.parentNode = p` assignment. -/
def setParent (h : Heap) (n : Nat) (p : Option Nat) : Heap :=
  hupdate h n { h n with parentNode := p }

/-- `node.childNodes = cs` (the net effect of `push`/`splice`/index
assignment on the array). -/
def setChildren (h : Heap) (n : Nat) (cs : List Nat) : Heap :=
  hupdate h n { h n with childNodes := cs }

/-- `Array.prototype.indexOf` returning `none` for `-1`. -/
def idxOf (x : Nat) : List Nat → Option Nat
  | [] => none
  | y :: ys => if y = x then some 0 else (idxOf x ys).map (· + 1)

/-- `arr.splice(i, 1)`. -/
def spliceRemove (l : List Nat) (i : Nat) : List Nat :=
  l.take i ++ l.drop (i + 1)

/-- `arr.splice(i, 0, x)` (JS clamps `i` to the array length). -/
def spliceInsert (l : List Nat) (i : Nat) (x : Nat) : List Nat :=
  l.take i ++ x :: l.drop i

/-- `arr[i] = x` for `i ≤ arr.length` (at `i = length` JS appends). -/
def setIdx (l : List Nat) (i : Nat) (x : Nat) : List Nat :=
  l.take i ++ x :: l.drop (i + 1)

/-- `Node.prototype.removeChild`: `indexOf`, throw `"Node not found"` when
absent, else clear `child.parentNode` and splice the child out. -/
def removeChild (h : Heap) (this child : Nat) : Except String Heap :=
  match idxOf child (h this).childNodes with
  | none => .error "Node not found"
  | some i =>
      let h1 := setParent h child none
      .ok (setChildren h1 this (spliceRemove (h1 this).childNodes i))

/-- The `if (child.parentNode) { child.parentNode.removeChild(child); }`
prologue shared by `appendChild`, `insertBefore` and `replaceChild`. -/
def detach (h : Heap) (child : Nat) : Except String Heap :=
  match (h child).parentNode with
  | some p => removeChild h p child
  | none => pure h

/-- `Node.prototype.appendChild`: detach from a prior parent, set
`child.parentNode = this`, push onto `childNodes`.  (The JS method returns
`child`; only the heap matters here.) -/
def appendChild (h : Heap) (this child : Nat) : Except String Heap := do
  let h1 ← detach h child
  let h2 := setParent h1 child (some this)
  pure (setChildren h2 this ((h2 this).childNodes ++ [child]))

/-- `Node.prototype.insertBefore`: a null reference delegates to
`appendChild`; otherwise `indexOf` the reference (throw
`"Reference node not found"` when absent — before any mutation), detach the
new node from a prior parent, and splice it in at the (possibly stale)
index. -/
def insertBefore (h : Heap) (this newNode : Nat) (referenceNode : Option Nat) :
    Except String Heap :=
  match referenceNode with
  | none => appendChild h this newNode
  | some ref =>
      match idxOf ref (h this).childNodes with
      | none => .error "Reference node not found"
      | some index => do
          let h1 ← detach h newNode
          let h2 := setParent h1 newNode (some this)
          pure (setChildren h2 this (spliceInsert ((h2 this).childNodes) index newNode))

/-- `Node.prototype.replaceChild`: `indexOf` the old child (throw
`"Node not Found"` when absent — before any mutation), detach the new child
from a prior parent, clear `oldChild.parentNode`, set
`newChild.parentNode = this`, and assign `childNodes[index] = newChild` at
the (possibly stale) index. -/
def replaceChild (h : Heap) (this newChild oldChild : Nat) : Except String Heap :=
  match idxOf oldChild (h this).childNodes with
  | none => .error "Node not Found"
  | some index => do
      let h1 ← detach h newChild
      let h2 := setParent h1 oldChild none
      let h3 := setParent h2 newChild (some this)
      pure (setChildren h3 this (setIdx ((h3 this).childNodes) index newChild))

/-- The tree invariants of the spec: the child/parent relation is
bidirectional (`n` is among `p`'s children exactly when `n`'s parent
reference is `p`, which also forces at most one parent per node) and every
`childNodes` list is duplicate-free. -/
def WF (h : Heap) : Prop :=
  (∀ p n : Nat, n ∈ (h p).childNodes ↔ (h n).parentNode = some p) ∧
  (∀ p : Nat, (h p).childNodes.Nodup)

/-! ## Verification layer: classes of listener behaviour and trace formulas -/

/-- Concatenation of the images of `f`, in order (`flatMap`). -/
def catMap (f : α → List β) : List α → List β
  | [] => []
  | a :: as => f a ++ catMap f as

/-- A behaviour that never calls `stopImmediatePropagation`. -/
def noStopImm : Act → Bool
  | .stopImmediate => false
  | .seq a b => noStopImm a && noStopImm b
  | _ => true

/-- A registration whose callback either does nothing or throws, and that is
not one-shot.  Such listeners leave the registry and the event state alone,
so dispatch through them is fully characterised. -/
def tame (r : Registration) : Bool :=
  (match r.act with
   | .skip => true
   | .throwErr _ => true
   | _ => false) && !r.once

/-- The `console.error` output produced by invoking a registration. -/
def errOf (r : Registration) : List String :=
  match r.act with
  | .throwErr m => ["Error in event listener: " ++ m]
  | _ => []

/-- The invocation records the capture phase contributes: path members
root-to-target excluding the target, capture registrations only, in
registration order. -/
def captureTrace (regs : Regs) (ty : String) (path : List Nat) : List (Nat × Nat × Nat) :=
  catMap (fun n => ((regs n ty).filter (fun r => r.capture)).map
    (fun r => (Event.CAPTURING_PHASE, n, r.lid))) path.dropLast

/-- The invocation records of the target phase: every registration of the
target for the type, in registration order. -/
def targetTrace (regs : Regs) (ty : String) (tgt : Nat) : List (Nat × Nat × Nat) :=
  (regs tgt ty).map (fun r => (Event.AT_TARGET, tgt, r.lid))

/-- The invocation records of the bubble phase: path members
target-to-root excluding the target, non-capture registrations only. -/
def bubbleTrace (regs : Regs) (ty : String) (path : List Nat) : List (Nat × Nat × Nat) :=
  catMap (fun n => ((regs n ty).filter (fun r => !r.capture)).map
    (fun r => (Event.BUBBLING_PHASE, n, r.lid))) path.dropLast.reverse

/-- The `console.error` lines of the capture phase. -/
def captureErrs (regs : Regs) (ty : String) (path : List Nat) : List String :=
  catMap (fun n => catMap errOf ((regs n ty).filter (fun r => r.capture))) path.dropLast

/-- The `console.error` lines of the target phase. -/
def targetErrs (regs : Regs) (ty : String) (tgt : Nat) : List String :=
  catMap errOf (regs tgt ty)

/-- The `console.error` lines of the bubble phase. -/
def bubbleErrs (regs : Regs) (ty : String) (path : List Nat) : List String :=
  catMap (fun n => catMap errOf ((regs n ty).filter (fun r => !r.capture))) path.dropLast.reverse

/-! ### Frame lemmas for `runAct` -/

lemma runAct_frame : ∀ (a : Act) (s : DState),
    (runAct a s).1.trace = s.trace ∧ (runAct a s).1.errlog = s.errlog ∧
    (runAct a s).1.ev.type = s.ev.type ∧ (runAct a s).1.ev.phase = s.ev.phase ∧
    (runAct a s).1.ev.cancelable = s.ev.cancelable ∧
    (runAct a s).1.ev.bubbles = s.ev.bubbles := by
  intro a
  induction a with
  | skip => intro s; simp [runAct]
  | stopProp => intro s; simp [runAct, EvState.stopPropagation]
  | stopImmediate => intro s; simp [runAct, EvState.stopImmediatePropagation]
  | prevDefault =>
      intro s
      simp only [runAct, EvState.preventDefault]
      split <;> simp
  | throwErr m => intro s; simp [runAct]
  | addL n ty lid a cap once ih => intro s; simp [runAct]
  | removeL n ty lid cap => intro s; simp [runAct]
  | seq a b iha ihb =>
      intro s
      simp only [runAct]
      rcases h : runAct a s with ⟨s', r⟩
      have ha := iha s
      rw [h] at ha
      cases r with
      | none =>
          have hb := ihb s'
          simp only at ha hb ⊢
          exact ⟨hb.1.trans ha.1, hb.2.1.trans ha.2.1, hb.2.2.1.trans ha.2.2.1,
                 hb.2.2.2.1.trans ha.2.2.2.1, hb.2.2.2.2.1.trans ha.2.2.2.2.1,
                 hb.2.2.2.2.2.trans ha.2.2.2.2.2⟩
      | some m => simpa using ha

lemma runAct_trace (a : Act) (s : DState) : (runAct a s).1.trace = s.trace :=
  (runAct_frame a s).1

lemma runAct_errlog (a : Act) (s : DState) : (runAct a s).1.errlog = s.errlog :=
  (runAct_frame a s).2.1

lemma runAct_type (a : Act) (s : DState) : (runAct a s).1.ev.type = s.ev.type :=
  (runAct_frame a s).2.2.1

lemma runAct_phase (a : Act) (s : DState) : (runAct a s).1.ev.phase = s.ev.phase :=
  (runAct_frame a s).2.2.2.1

lemma runAct_cancelable (a : Act) (s : DState) :
    (runAct a s).1.ev.cancelable = s.ev.cancelable :=
  (runAct_frame a s).2.2.2.2.1

lemma runAct_bubbles (a : Act) (s : DState) :
    (runAct a s).1.ev.bubbles = s.ev.bubbles :=
  (runAct_frame a s).2.2.2.2.2

lemma reportCaught_trace (x : DState × Option String) :
    (reportCaught x).trace = x.1.trace := by
  rcases x with ⟨s3, _ | m⟩ <;> rfl

lemma reportCaught_ev (x : DState × Option String) :
    (reportCaught x).ev = x.1.ev := by
  rcases x with ⟨s3, _ | m⟩ <;> rfl

lemma reportCaught_regs (x : DState × Option String) :
    (reportCaught x).regs = x.1.regs := by
  rcases x with ⟨s3, _ | m⟩ <;> rfl

lemma runAct_imm (a : Act) (s : DState) (ha : noStopImm a = true)
    (hs : s.ev.immediatePropagationStopped = false) :
    (runAct a s).1.ev.immediatePropagationStopped = false := by
  induction a generalizing s with
  | skip => simpa [runAct]
  | stopProp => simpa [runAct, EvState.stopPropagation]
  | stopImmediate => simp [noStopImm] at ha
  | prevDefault =>
      simp only [runAct, EvState.preventDefault]
      split <;> simpa
  | throwErr m => simpa [runAct]
  | addL n ty lid a cap once ih => simpa [runAct]
  | removeL n ty lid cap => simpa [runAct]
  | seq a b iha ihb =>
      simp only [noStopImm, Bool.and_eq_true] at ha
      simp only [runAct]
      rcases h : runAct a s with ⟨s', r⟩
      have ha' := iha s ha.1 hs
      rw [h] at ha'
      cases r with
      | none => exact ihb s' ha.2 ha'
      | some m => simpa using ha'

lemma runAct_dp (a : Act) (s : DState) (hc : s.ev.cancelable = false)
    (hd : s.ev.defaultPrevented = false) :
    (runAct a s).1.ev.defaultPrevented = false := by
  induction a generalizing s with
  | skip => simpa [runAct]
  | stopProp => simpa [runAct, EvState.stopPropagation]
  | stopImmediate => simpa [runAct, EvState.stopImmediatePropagation]
  | prevDefault => simp [runAct, EvState.preventDefault, hc, hd]
  | throwErr m => simpa [runAct]
  | addL n ty lid a cap once ih => simpa [runAct]
  | removeL n ty lid cap => simpa [runAct]
  | seq a b iha ihb =>
      simp only [runAct]
      rcases h : runAct a s with ⟨s', r⟩
      have hc' := (runAct_frame a s).2.2.2.2.1
      rw [h] at hc'
      have hd' := iha s hc hd
      rw [h] at hd'
      cases r with
      | none => exact ihb s' (hc'.trans hc) hd'
      | some m => simpa using hd'

/-! ### Characterising listener execution -/

/-- A tame (do-nothing-or-throw, not one-shot) registration changes only the
trace and the error log. -/
lemma executeListner_tame (tgt : Nat) (entry : Registration) (s : DState)
    (ht : tame entry = true) :
    executeListner tgt entry s =
      { s with trace := s.trace ++ [(s.ev.phase, tgt, entry.lid)],
               errlog := s.errlog ++ errOf entry } := by
  have honce : entry.once = false := by
    rcases h : entry.once
    · rfl
    · rw [tame, h] at ht; simp at ht
  cases hact : entry.act with
  | skip => simp [executeListner, honce, hact, runAct, errOf, reportCaught]
  | throwErr m => simp [executeListner, honce, hact, runAct, errOf, reportCaught]
  | stopProp => rw [tame, hact] at ht; simp at ht
  | stopImmediate => rw [tame, hact] at ht; simp at ht
  | prevDefault => rw [tame, hact] at ht; simp at ht
  | addL n ty lid a cap once => rw [tame, hact] at ht; simp at ht
  | removeL n ty lid cap => rw [tame, hact] at ht; simp at ht
  | seq a b => rw [tame, hact] at ht; simp at ht

/-- Any registration whose behaviour never calls
`stopImmediatePropagation` appends exactly one invocation record and leaves
the immediate-stop flag, the phase and the type alone. -/
lemma executeListner_noStopImm (tgt : Nat) (entry : Registration) (s : DState)
    (h : noStopImm entry.act = true)
    (himm : s.ev.immediatePropagationStopped = false) :
    (executeListner tgt entry s).trace = s.trace ++ [(s.ev.phase, tgt, entry.lid)]
    ∧ (executeListner tgt entry s).ev.immediatePropagationStopped = false
    ∧ (executeListner tgt entry s).ev.phase = s.ev.phase
    ∧ (executeListner tgt entry s).ev.type = s.ev.type := by
  cases ho : entry.once with
  | true =>
      simp only [executeListner, ho, if_true, reportCaught_trace, reportCaught_ev,
        runAct_trace, runAct_phase, runAct_type]
      refine ⟨trivial, ?_, trivial, trivial⟩
      exact runAct_imm _ _ h himm
  | false =>
      simp only [executeListner, ho, Bool.false_eq_true, if_false, reportCaught_trace,
        reportCaught_ev, runAct_trace, runAct_phase, runAct_type]
      refine ⟨trivial, ?_, trivial, trivial⟩
      exact runAct_imm _ _ h himm

/-- The snapshot loop over tame registrations: it runs every
phase-matching snapshot entry in order and only extends the trace and the
error log. -/
lemma invokeLoop_tame (tgt : Nat) (fc : Option Bool) (l : List Registration) (s : DState)
    (hl : ∀ r ∈ l, tame r = true) (himm : s.ev.immediatePropagationStopped = false) :
    invokeLoop tgt fc l s =
      { s with trace := s.trace ++ (l.filter (phaseMatches fc)).map
                 (fun r => (s.ev.phase, tgt, r.lid)),
               errlog := s.errlog ++ catMap errOf (l.filter (phaseMatches fc)) } := by
  induction l generalizing s with
  | nil => simp [invokeLoop, catMap]
  | cons e rest ih =>
      have he := hl e (by simp)
      have hrest : ∀ r ∈ rest, tame r = true := fun r hr => hl r (by simp [hr])
      simp only [invokeLoop]
      cases hm : phaseMatches fc e with
      | true =>
          rw [if_pos rfl]
          rw [executeListner_tame tgt e s he]
          rw [if_neg (by simp [himm])]
          rw [ih _ hrest (by simp [himm])]
          simp [List.filter_cons, hm, catMap, List.append_assoc]
      | false =>
          rw [if_neg (by simp)]
          rw [ih s hrest himm]
          simp [List.filter_cons, hm]

/-- The snapshot loop under registrations that never call
`stopImmediatePropagation`: every phase-matching snapshot entry is invoked
exactly once, in snapshot order — regardless of how the callbacks mutate
the live registry — and the flag, phase and type are unchanged. -/
lemma invokeLoop_noStopImm (tgt : Nat) (fc : Option Bool) (l : List Registration) (s : DState)
    (hl : ∀ r ∈ l, noStopImm r.act = true) (himm : s.ev.immediatePropagationStopped = false) :
    (invokeLoop tgt fc l s).trace = s.trace ++ (l.filter (phaseMatches fc)).map
        (fun r => (s.ev.phase, tgt, r.lid))
    ∧ (invokeLoop tgt fc l s).ev.immediatePropagationStopped = false
    ∧ (invokeLoop tgt fc l s).ev.phase = s.ev.phase
    ∧ (invokeLoop tgt fc l s).ev.type = s.ev.type := by
  induction l generalizing s with
  | nil => simpa [invokeLoop]
  | cons e rest ih =>
      have he := hl e (by simp)
      have hrest : ∀ r ∈ rest, noStopImm r.act = true := fun r hr => hl r (by simp [hr])
      simp only [invokeLoop]
      cases hm : phaseMatches fc e with
      | true =>
          rw [if_pos rfl]
          obtain ⟨htr, hi, hph, hty⟩ := executeListner_noStopImm tgt e s he himm
          rw [if_neg (by simp [hi])]
          obtain ⟨htr', hi', hph', hty'⟩ := ih (executeListner tgt e s) hrest hi
          refine ⟨?_, hi', hph'.trans hph, hty'.trans hty⟩
          rw [htr', htr, hph]
          simp [List.filter_cons, hm, List.append_assoc]
      | false =>
          rw [if_neg (by simp)]
          obtain ⟨htr', hi', hph', hty'⟩ := ih s hrest himm
          exact ⟨by rw [htr']; simp [List.filter_cons, hm], hi', hph', hty'⟩

/-! ### Path lemmas -/

lemma computePath_parent_none (parent : Nat → Option Nat) (fuel n : Nat)
    (h : parent n = none) : computePath parent fuel n = [n] := by
  cases fuel with
  | zero => rfl
  | succ f => simp [computePath, h]

lemma computePath_concat (parent : Nat → Option Nat) (fuel n : Nat) :
    ∃ l, computePath parent fuel n = l ++ [n] := by
  cases fuel with
  | zero => exact ⟨[], rfl⟩
  | succ f =>
      cases h : parent n with
      | none => exact ⟨[], by simp [computePath, h]⟩
      | some p => exact ⟨computePath parent f p, by simp [computePath, h]⟩

lemma computePath_mem_self (parent : Nat → Option Nat) (fuel n : Nat) :
    n ∈ computePath parent fuel n := by
  obtain ⟨l, hl⟩ := computePath_concat parent fuel n
  simp [hl]

lemma mem_of_mem_dropLast {l : List Nat} {m : Nat} (h : m ∈ l.dropLast) : m ∈ l :=
  (List.dropLast_prefix l).subset h

/-! ### Phase filters -/

lemma filter_phaseMatches_true (l : List Registration) :
    l.filter (phaseMatches (some true)) = l.filter (fun r => r.capture) :=
  List.filter_congr (fun r _ => by simp [phaseMatches])

lemma filter_phaseMatches_false (l : List Registration) :
    l.filter (phaseMatches (some false)) = l.filter (fun r => !r.capture) :=
  List.filter_congr (fun r _ => by simp [phaseMatches])

lemma filter_phaseMatches_none (l : List Registration) :
    l.filter (phaseMatches none) = l := by
  induction l with
  | nil => rfl
  | cons e rest ih => simp [List.filter_cons, phaseMatches, ih]

/-! ### The phase loops under tame listeners -/

/-- Capture-phase loop over tame listeners: fires the capture
registrations of each visited node, in order, only moving
`currentTarget` and extending trace and error log. -/
lemma captureLoop_tame (ns : List Nat) (s : DState)
    (hr : ∀ n ∈ ns, ∀ r ∈ s.regs n s.ev.type, tame r = true)
    (hprop : s.ev.propagationStopped = false)
    (himm : s.ev.immediatePropagationStopped = false) :
    ∃ ct, captureLoop ns s =
      { s with ev := { s.ev with currentTarget := ct },
               trace := s.trace ++ catMap (fun n => ((s.regs n s.ev.type).filter
                 (fun r => r.capture)).map (fun r => (s.ev.phase, n, r.lid))) ns,
               errlog := s.errlog ++ catMap (fun n => catMap errOf
                 ((s.regs n s.ev.type).filter (fun r => r.capture))) ns } := by
  induction ns generalizing s with
  | nil =>
      refine ⟨s.ev.currentTarget, ?_⟩
      simp [captureLoop, catMap]
  | cons n rest ih =>
      simp only [captureLoop]
      rw [if_neg (by simp [hprop])]
      have hinv : invokeListeners n true { s with ev := { s.ev with currentTarget := some n } } =
          { s with ev := { s.ev with currentTarget := some n },
                   trace := s.trace ++ ((s.regs n s.ev.type).filter (fun r => r.capture)).map
                     (fun r => (s.ev.phase, n, r.lid)),
                   errlog := s.errlog ++ catMap errOf
                     ((s.regs n s.ev.type).filter (fun r => r.capture)) } := by
        rw [invokeListeners]
        rw [invokeLoop_tame _ _ _ _ (by simpa using hr n (by simp)) (by simpa using himm)]
        rw [filter_phaseMatches_true]
      rw [hinv]
      obtain ⟨ct, hrec⟩ := ih
        { s with ev := { s.ev with currentTarget := some n },
                 trace := s.trace ++ ((s.regs n s.ev.type).filter (fun r => r.capture)).map
                   (fun r => (s.ev.phase, n, r.lid)),
                 errlog := s.errlog ++ catMap errOf
                   ((s.regs n s.ev.type).filter (fun r => r.capture)) }
        (by simpa using fun x hx => hr x (by simp [hx]))
        (by simpa using hprop) (by simpa using himm)
      refine ⟨ct, ?_⟩
      rw [hrec]
      simp [catMap, List.append_assoc]

/-- Bubble-phase loop over tame listeners: same shape with the
non-capture registrations. -/
lemma bubbleLoop_tame (ns : List Nat) (s : DState)
    (hr : ∀ n ∈ ns, ∀ r ∈ s.regs n s.ev.type, tame r = true)
    (hprop : s.ev.propagationStopped = false)
    (himm : s.ev.immediatePropagationStopped = false) :
    ∃ ct, bubbleLoop ns s =
      { s with ev := { s.ev with currentTarget := ct },
               trace := s.trace ++ catMap (fun n => ((s.regs n s.ev.type).filter
                 (fun r => !r.capture)).map (fun r => (s.ev.phase, n, r.lid))) ns,
               errlog := s.errlog ++ catMap (fun n => catMap errOf
                 ((s.regs n s.ev.type).filter (fun r => !r.capture))) ns } := by
  induction ns generalizing s with
  | nil =>
      refine ⟨s.ev.currentTarget, ?_⟩
      simp [bubbleLoop, catMap]
  | cons n rest ih =>
      simp only [bubbleLoop]
      rw [if_neg (by simp [hprop])]
      have hinv : invokeListeners n false { s with ev := { s.ev with currentTarget := some n } } =
          { s with ev := { s.ev with currentTarget := some n },
                   trace := s.trace ++ ((s.regs n s.ev.type).filter (fun r => !r.capture)).map
                     (fun r => (s.ev.phase, n, r.lid)),
                   errlog := s.errlog ++ catMap errOf
                     ((s.regs n s.ev.type).filter (fun r => !r.capture)) } := by
        rw [invokeListeners]
        rw [invokeLoop_tame _ _ _ _ (by simpa using hr n (by simp)) (by simpa using himm)]
        rw [filter_phaseMatches_false]
      rw [hinv]
      obtain ⟨ct, hrec⟩ := ih
        { s with ev := { s.ev with currentTarget := some n },
                 trace := s.trace ++ ((s.regs n s.ev.type).filter (fun r => !r.capture)).map
                   (fun r => (s.ev.phase, n, r.lid)),
                 errlog := s.errlog ++ catMap errOf
                   ((s.regs n s.ev.type).filter (fun r => !r.capture)) }
        (by simpa using fun x hx => hr x (by simp [hx]))
        (by simpa using hprop) (by simpa using himm)
      refine ⟨ct, ?_⟩
      rw [hrec]
      simp [catMap, List.append_assoc]

/-! ### Whole-dispatch characterisation under tame listeners -/

/-- Master lemma: with tame registrations on every path node and a clean
event, dispatch produces exactly the capture-, then target-, then (when
`bubbles`) bubble-phase invocations, logs exactly the thrown errors in
invocation order, and returns the negation of `defaultPrevented`. -/
lemma dispatchEvent_tame (parent : Nat → Option Nat) (fuel tgt : Nat) (s : DState)
    (hr : ∀ n ∈ computePath parent fuel tgt, ∀ r ∈ s.regs n s.ev.type, tame r = true)
    (hprop : s.ev.propagationStopped = false)
    (himm : s.ev.immediatePropagationStopped = false) :
    (dispatchEvent parent fuel tgt s).1.trace =
        s.trace ++ captureTrace s.regs s.ev.type (computePath parent fuel tgt)
                ++ targetTrace s.regs s.ev.type tgt
                ++ (if s.ev.bubbles then
                      bubbleTrace s.regs s.ev.type (computePath parent fuel tgt) else [])
    ∧ (dispatchEvent parent fuel tgt s).1.errlog =
        s.errlog ++ captureErrs s.regs s.ev.type (computePath parent fuel tgt)
                 ++ targetErrs s.regs s.ev.type tgt
                 ++ (if s.ev.bubbles then
                       bubbleErrs s.regs s.ev.type (computePath parent fuel tgt) else [])
    ∧ (dispatchEvent parent fuel tgt s).2 = !s.ev.defaultPrevented := by
  obtain ⟨regs, ⟨ty, bub, can, tar, cur, ph, ps, im, dp⟩, tr, el⟩ := s
  simp only at hr hprop himm
  subst hprop himm
  simp only [dispatchEvent]
  obtain ⟨ct1, hcap⟩ := captureLoop_tame (computePath parent fuel tgt).dropLast
    ⟨regs, ⟨ty, bub, can, some tgt, cur, Event.CAPTURING_PHASE, false, false, dp⟩, tr, el⟩
    (fun n hn => hr n (mem_of_mem_dropLast hn)) rfl rfl
  simp only at hcap
  rw [hcap]
  have htgt : targetStep tgt
      ⟨regs, ⟨ty, bub, can, some tgt, ct1, Event.CAPTURING_PHASE, false, false, dp⟩,
        tr ++ catMap (fun n => ((regs n ty).filter (fun r => r.capture)).map
          (fun r => (Event.CAPTURING_PHASE, n, r.lid))) (computePath parent fuel tgt).dropLast,
        el ++ catMap (fun n => catMap errOf ((regs n ty).filter (fun r => r.capture)))
          (computePath parent fuel tgt).dropLast⟩ =
      ⟨regs, ⟨ty, bub, can, some tgt, some tgt, Event.AT_TARGET, false, false, dp⟩,
        (tr ++ catMap (fun n => ((regs n ty).filter (fun r => r.capture)).map
          (fun r => (Event.CAPTURING_PHASE, n, r.lid))) (computePath parent fuel tgt).dropLast)
          ++ (regs tgt ty).map (fun r => (Event.AT_TARGET, tgt, r.lid)),
        (el ++ catMap (fun n => catMap errOf ((regs n ty).filter (fun r => r.capture)))
          (computePath parent fuel tgt).dropLast) ++ catMap errOf (regs tgt ty)⟩ := by
    rw [targetStep]
    rw [if_neg (by simp)]
    simp only
    rw [invokeListenersAtTarget]
    rw [invokeLoop_tame _ _ _ _ (fun r hrr => hr tgt (computePath_mem_self parent fuel tgt) r hrr) rfl]
    rw [filter_phaseMatches_none]
  rw [htgt]
  cases hb : bub with
  | false =>
      rw [bubbleStep]
      rw [if_neg (by simp)]
      refine ⟨?_, ?_, by simp⟩
      · simp [captureTrace, targetTrace, List.append_assoc]
      · simp [captureErrs, targetErrs, List.append_assoc]
  | true =>
      rw [bubbleStep]
      rw [if_pos (by simp)]
      simp only
      obtain ⟨ct2, hbubl⟩ := bubbleLoop_tame (computePath parent fuel tgt).dropLast.reverse
        ⟨regs, ⟨ty, true, can, some tgt, some tgt, Event.BUBBLING_PHASE, false, false, dp⟩,
          (tr ++ catMap (fun n => ((regs n ty).filter (fun r => r.capture)).map
            (fun r => (Event.CAPTURING_PHASE, n, r.lid))) (computePath parent fuel tgt).dropLast)
            ++ (regs tgt ty).map (fun r => (Event.AT_TARGET, tgt, r.lid)),
          (el ++ catMap (fun n => catMap errOf ((regs n ty).filter (fun r => r.capture)))
            (computePath parent fuel tgt).dropLast) ++ catMap errOf (regs tgt ty)⟩
        (fun n hn => hr n (mem_of_mem_dropLast (List.mem_reverse.mp hn))) rfl rfl
      simp only at hbubl
      rw [hbubl]
      refine ⟨?_, ?_, by simp⟩
      · simp [captureTrace, targetTrace, bubbleTrace, List.append_assoc]
      · simp [captureErrs, targetErrs, bubbleErrs, List.append_assoc]

/-! ## Claim C1: dispatch ordering -/

/-- C1.  For every tree and every dispatch target, with listeners that do
nothing and are not one-shot (so that ordering is observed in isolation)
and a clean event: the trace of `dispatchEvent` is exactly the capture
phase (path members root-to-target excluding the target, capture
registrations only), then the target phase (all of the target's
registrations in registration order regardless of capture flag), then —
only when `event.bubbles` — the bubble phase (path members
target-to-root excluding the target, non-capture registrations only).
In particular, for chain root→A→B with a capture listener on root, a
capture and a non-capture listener on B and a non-capture listener on A,
a bubbling event dispatched on B fires root-capture, B-capture,
B-non-capture, A-non-capture (see the witness). -/
theorem c1_dispatch_order (parent : Nat → Option Nat) (fuel tgt : Nat) (s : DState)
    (hpure : ∀ n ∈ computePath parent fuel tgt, ∀ r ∈ s.regs n s.ev.type,
      r.act = Act.skip ∧ r.once = false)
    (hprop : s.ev.propagationStopped = false)
    (himm : s.ev.immediatePropagationStopped = false) :
    (dispatchEvent parent fuel tgt s).1.trace =
      s.trace ++ captureTrace s.regs s.ev.type (computePath parent fuel tgt)
              ++ targetTrace s.regs s.ev.type tgt
              ++ (if s.ev.bubbles then
                    bubbleTrace s.regs s.ev.type (computePath parent fuel tgt) else []) :=
  (dispatchEvent_tame parent fuel tgt s
    (fun n hn r hrr => by
      obtain ⟨ha, ho⟩ := hpure n hn r hrr
      simp [tame, ha, ho]) hprop himm).1

/-- The C1 ancestor chain root 0 → 1 → 2. -/
def c1par : Nat → Option Nat :=
  fun n => if n = 2 then some 1 else if n = 1 then some 0 else none

/-- The C1 listeners: capture on the root, capture and non-capture on the
target, non-capture on the middle node. -/
def c1regs : Regs := fun n t =>
  if t = "click" then
    if n = 0 then [⟨10, Act.skip, true, false⟩]
    else if n = 2 then [⟨11, Act.skip, true, false⟩, ⟨12, Act.skip, false, false⟩]
    else if n = 1 then [⟨13, Act.skip, false, false⟩]
    else []
  else []

/-- The C1 initial dispatch state: a fresh bubbling `click` event. -/
def c1state : DState := ⟨c1regs, mkEvent "click" true false, [], []⟩

/-- Witness for C1: on the concrete chain the order is root-capture,
B-capture, B-non-capture, A-non-capture. -/
theorem c1_dispatch_order_witness :
    (∀ n ∈ computePath c1par 5 2, ∀ r ∈ c1state.regs n c1state.ev.type,
        r.act = Act.skip ∧ r.once = false)
    ∧ c1state.ev.propagationStopped = false
    ∧ c1state.ev.immediatePropagationStopped = false
    ∧ (dispatchEvent c1par 5 2 c1state).1.trace =
        [(Event.CAPTURING_PHASE, 0, 10), (Event.AT_TARGET, 2, 11),
         (Event.AT_TARGET, 2, 12), (Event.BUBBLING_PHASE, 1, 13)] :=
  ⟨by decide, rfl, rfl, by
    rw [c1_dispatch_order c1par 5 2 c1state (by decide) rfl rfl]
    decide⟩

/-! ## Claim C2: snapshot iteration -/

/-- C2.  Each per-node, per-phase iteration runs over the snapshot of the
registration sequence taken when the invocation starts: provided no
executed callback calls `stopImmediatePropagation`, every snapshot entry
matching the phase filter is invoked exactly once, in snapshot order, even
when callbacks add or remove registrations for the same node and type —
and a registration added during the iteration does not fire in it.  Both
`_invokeListeners` (capture-filtered) and `_invokeListenersAtTarget`
(unfiltered) are covered. -/
theorem c2_snapshot_iteration (tgt : Nat) (fc : Bool) (s : DState)
    (h : ∀ r ∈ s.regs tgt s.ev.type, noStopImm r.act = true)
    (himm : s.ev.immediatePropagationStopped = false) :
    (invokeListeners tgt fc s).trace =
      s.trace ++ ((s.regs tgt s.ev.type).filter (fun r => r.capture == fc)).map
        (fun r => (s.ev.phase, tgt, r.lid))
    ∧ (invokeListenersAtTarget tgt s).trace =
      s.trace ++ (s.regs tgt s.ev.type).map (fun r => (s.ev.phase, tgt, r.lid)) := by
  constructor
  · rw [invokeListeners]
    exact (invokeLoop_noStopImm tgt (some fc) (s.regs tgt s.ev.type) s h himm).1
  · rw [invokeListenersAtTarget]
    have h1 := (invokeLoop_noStopImm tgt none (s.regs tgt s.ev.type) s h himm).1
    rw [filter_phaseMatches_none] at h1
    exact h1

/-- The C2 registry: during the iteration on node 0, listener 1 adds a new
registration (lid 9), listener 2 removes listener 3 from the live list, and
listener 3 is a plain listener. -/
def c2regs : Regs := fun n t =>
  if n = 0 ∧ t = "t" then
    [⟨1, Act.addL 0 "t" 9 Act.skip false false, false, false⟩,
     ⟨2, Act.removeL 0 "t" 3 false, false, false⟩,
     ⟨3, Act.skip, false, false⟩]
  else []

/-- The C2 initial state. -/
def c2state : DState := ⟨c2regs, mkEvent "t" false false, [], []⟩

/-- Witness for C2: listener 3 still fires although listener 2 removed it
from the live registry, and the registration added by listener 1 does not
fire in the same iteration. -/
theorem c2_snapshot_iteration_witness :
    (∀ r ∈ c2state.regs 0 c2state.ev.type, noStopImm r.act = true)
    ∧ c2state.ev.immediatePropagationStopped = false
    ∧ (invokeListeners 0 false c2state).trace =
        [(Event.NONE, 0, 1), (Event.NONE, 0, 2), (Event.NONE, 0, 3)] :=
  ⟨by decide, rfl, by
    rw [(c2_snapshot_iteration 0 false c2state (by decide) rfl).1]
    decide⟩

/-! ## Claim C8: failure isolation -/

/-- C8.  With listeners that either do nothing or throw (`tame`), on any
path: every listener still fires in its phase (the full three-phase
trace), every raised exception is caught at the per-listener boundary and
reported to the logging collaborator as `Error in event listener: msg`
in invocation order, and dispatch completes returning its boolean result
(`!defaultPrevented`) no matter how many listeners fail.  In the
embedding `dispatchEvent` is a total function and the `try`/`catch` of
`_executeListner` (`reportCaught`) is the only place errors land, so no
listener exception reaches the caller. -/
theorem c8_failure_isolation (parent : Nat → Option Nat) (fuel tgt : Nat) (s : DState)
    (hr : ∀ n ∈ computePath parent fuel tgt, ∀ r ∈ s.regs n s.ev.type, tame r = true)
    (hprop : s.ev.propagationStopped = false)
    (himm : s.ev.immediatePropagationStopped = false) :
    (dispatchEvent parent fuel tgt s).1.trace =
        s.trace ++ captureTrace s.regs s.ev.type (computePath parent fuel tgt)
                ++ targetTrace s.regs s.ev.type tgt
                ++ (if s.ev.bubbles then
                      bubbleTrace s.regs s.ev.type (computePath parent fuel tgt) else [])
    ∧ (dispatchEvent parent fuel tgt s).1.errlog =
        s.errlog ++ captureErrs s.regs s.ev.type (computePath parent fuel tgt)
                 ++ targetErrs s.regs s.ev.type tgt
                 ++ (if s.ev.bubbles then
                       bubbleErrs s.regs s.ev.type (computePath parent fuel tgt) else [])
    ∧ (dispatchEvent parent fuel tgt s).2 = !s.ev.defaultPrevented :=
  dispatchEvent_tame parent fuel tgt s hr hprop himm

/-- The C8 chain 0 → 1 with a throwing capture listener on the root, a
throwing and a plain listener on the target. -/
def c8par : Nat → Option Nat := fun n => if n = 1 then some 0 else none

/-- The C8 registry. -/
def c8regs : Regs := fun n t =>
  if t = "t" then
    if n = 0 then [⟨1, Act.throwErr "boom", true, false⟩, ⟨2, Act.skip, false, false⟩]
    else if n = 1 then [⟨3, Act.skip, false, false⟩, ⟨4, Act.throwErr "bam", true, false⟩]
    else []
  else []

/-- The C8 initial state: fresh bubbling event. -/
def c8state : DState := ⟨c8regs, mkEvent "t" true false, [], []⟩

/-- Witness for C8: both throwers fire and are logged, every other
listener still fires, and dispatch returns `true`. -/
theorem c8_failure_isolation_witness :
    (∀ n ∈ computePath c8par 3 1, ∀ r ∈ c8state.regs n c8state.ev.type, tame r = true)
    ∧ c8state.ev.propagationStopped = false
    ∧ c8state.ev.immediatePropagationStopped = false
    ∧ (dispatchEvent c8par 3 1 c8state).1.trace =
        [(Event.CAPTURING_PHASE, 0, 1), (Event.AT_TARGET, 1, 3),
         (Event.AT_TARGET, 1, 4), (Event.BUBBLING_PHASE, 0, 2)]
    ∧ (dispatchEvent c8par 3 1 c8state).1.errlog =
        ["Error in event listener: boom", "Error in event listener: bam"]
    ∧ (dispatchEvent c8par 3 1 c8state).2 = true := by
  have h := c8_failure_isolation c8par 3 1 c8state (by decide) rfl rfl
  refine ⟨by decide, rfl, rfl, ?_, ?_, ?_⟩
  · rw [h.1]; decide
  · rw [h.2.1]; decide
  · rw [h.2.2]; decide

/-! ## Claim C9: preventDefault on a non-cancelable event -/

lemma executeListner_nc (tgt : Nat) (entry : Registration) (s : DState)
    (hc : s.ev.cancelable = false) (hd : s.ev.defaultPrevented = false) :
    (executeListner tgt entry s).ev.cancelable = false ∧
    (executeListner tgt entry s).ev.defaultPrevented = false := by
  cases ho : entry.once with
  | true =>
      simp only [executeListner, ho, if_true, reportCaught_ev]
      exact ⟨by rw [runAct_cancelable]; exact hc, runAct_dp _ _ hc hd⟩
  | false =>
      simp only [executeListner, ho, Bool.false_eq_true, if_false, reportCaught_ev]
      exact ⟨by rw [runAct_cancelable]; exact hc, runAct_dp _ _ hc hd⟩

lemma invokeLoop_nc (tgt : Nat) (fc : Option Bool) (l : List Registration) (s : DState)
    (hc : s.ev.cancelable = false) (hd : s.ev.defaultPrevented = false) :
    (invokeLoop tgt fc l s).ev.cancelable = false ∧
    (invokeLoop tgt fc l s).ev.defaultPrevented = false := by
  induction l generalizing s with
  | nil => exact ⟨hc, hd⟩
  | cons e rest ih =>
      simp only [invokeLoop]
      cases hm : phaseMatches fc e with
      | true =>
          rw [if_pos rfl]
          obtain ⟨hc', hd'⟩ := executeListner_nc tgt e s hc hd
          split
          · exact ⟨hc', hd'⟩
          · exact ih _ hc' hd'
      | false =>
          rw [if_neg (by simp)]
          exact ih s hc hd

lemma invokeListeners_nc (n : Nat) (fcb : Bool) (s : DState)
    (hc : s.ev.cancelable = false) (hd : s.ev.defaultPrevented = false) :
    (invokeListeners n fcb s).ev.cancelable = false ∧
    (invokeListeners n fcb s).ev.defaultPrevented = false := by
  rw [invokeListeners]; exact invokeLoop_nc n (some fcb) _ s hc hd

lemma invokeListenersAtTarget_nc (n : Nat) (s : DState)
    (hc : s.ev.cancelable = false) (hd : s.ev.defaultPrevented = false) :
    (invokeListenersAtTarget n s).ev.cancelable = false ∧
    (invokeListenersAtTarget n s).ev.defaultPrevented = false := by
  rw [invokeListenersAtTarget]; exact invokeLoop_nc n none _ s hc hd

lemma captureLoop_nc (ns : List Nat) (s : DState)
    (hc : s.ev.cancelable = false) (hd : s.ev.defaultPrevented = false) :
    (captureLoop ns s).ev.cancelable = false ∧
    (captureLoop ns s).ev.defaultPrevented = false := by
  induction ns generalizing s with
  | nil => exact ⟨hc, hd⟩
  | cons n rest ih =>
      simp only [captureLoop]
      split
      · exact ⟨hc, hd⟩
      · exact ih _ (invokeListeners_nc n true
            { s with ev := { s.ev with currentTarget := some n } } hc hd).1
          (invokeListeners_nc n true
            { s with ev := { s.ev with currentTarget := some n } } hc hd).2

lemma bubbleLoop_nc (ns : List Nat) (s : DState)
    (hc : s.ev.cancelable = false) (hd : s.ev.defaultPrevented = false) :
    (bubbleLoop ns s).ev.cancelable = false ∧
    (bubbleLoop ns s).ev.defaultPrevented = false := by
  induction ns generalizing s with
  | nil => exact ⟨hc, hd⟩
  | cons n rest ih =>
      simp only [bubbleLoop]
      split
      · exact ⟨hc, hd⟩
      · exact ih _ (invokeListeners_nc n false
            { s with ev := { s.ev with currentTarget := some n } } hc hd).1
          (invokeListeners_nc n false
            { s with ev := { s.ev with currentTarget := some n } } hc hd).2

lemma targetStep_nc (tgt : Nat) (s : DState)
    (hc : s.ev.cancelable = false) (hd : s.ev.defaultPrevented = false) :
    (targetStep tgt s).ev.cancelable = false ∧
    (targetStep tgt s).ev.defaultPrevented = false := by
  rw [targetStep]
  split
  · exact ⟨hc, hd⟩
  · exact invokeListenersAtTarget_nc tgt _ hc hd

lemma bubbleStep_nc (path : List Nat) (s : DState)
    (hc : s.ev.cancelable = false) (hd : s.ev.defaultPrevented = false) :
    (bubbleStep path s).ev.cancelable = false ∧
    (bubbleStep path s).ev.defaultPrevented = false := by
  rw [bubbleStep]
  split
  · exact bubbleLoop_nc _ _ hc hd
  · exact ⟨hc, hd⟩

/-- C9.  `preventDefault()` on a non-cancelable event is a no-op (the
event state is unchanged, so any number of calls leaves `defaultPrevented`
false, and no error is possible — `preventDefault` is a total function);
dispatch always returns the negation of the final `defaultPrevented`; and
dispatching an event with `cancelable = false` and a clean
`defaultPrevented` returns `true` no matter what the listeners do. -/
theorem c9_preventDefault_noncancelable (parent : Nat → Option Nat) (fuel tgt : Nat)
    (s : DState) :
    (∀ e : EvState, e.cancelable = false → e.preventDefault = e)
    ∧ (dispatchEvent parent fuel tgt s).2 =
        !(dispatchEvent parent fuel tgt s).1.ev.defaultPrevented
    ∧ (s.ev.cancelable = false → s.ev.defaultPrevented = false →
        (dispatchEvent parent fuel tgt s).2 = true) := by
  refine ⟨?_, rfl, ?_⟩
  · intro e hcc
    rw [EvState.preventDefault, if_neg (by simp [hcc])]
  · intro hc hd
    have h1 := captureLoop_nc (computePath parent fuel tgt).dropLast
      { s with ev := { s.ev with target := some tgt, phase := Event.CAPTURING_PHASE } } hc hd
    have h2 := targetStep_nc tgt _ h1.1 h1.2
    have h3 := bubbleStep_nc (computePath parent fuel tgt) _ h2.1 h2.2
    simp only [dispatchEvent]
    rw [h3.2]
    rfl

/-- The C9 registry: a listener that calls `preventDefault` (twice, via
`seq`) on node 0. -/
def c9regs : Regs := fun n t =>
  if n = 0 ∧ t = "t" then [⟨1, Act.seq Act.prevDefault Act.prevDefault, false, false⟩] else []

/-- The C9 initial state: a fresh non-cancelable event. -/
def c9state : DState := ⟨c9regs, mkEvent "t" false false, [], []⟩

/-- Witness for C9: the listener calls `preventDefault` twice during
dispatch of a non-cancelable event; dispatch still returns `true` and
`defaultPrevented` stays false. -/
theorem c9_preventDefault_noncancelable_witness :
    c9state.ev.cancelable = false ∧ c9state.ev.defaultPrevented = false ∧
    (mkEvent "t" false false).preventDefault = mkEvent "t" false false ∧
    (dispatchEvent (fun _ => none) 1 0 c9state).2 = true :=
  ⟨rfl, rfl,
    (c9_preventDefault_noncancelable (fun _ => none) 1 0 c9state).1 (mkEvent "t" false false) rfl,
    (c9_preventDefault_noncancelable (fun _ => none) 1 0 c9state).2.2 rfl rfl⟩

/-! ## Claim C10: dispatch on a detached node -/

lemma bubbleStep_trace_of_dropLast_nil (path : List Nat) (hp : path.dropLast = [])
    (s3 : DState) : (bubbleStep path s3).trace = s3.trace := by
  rw [bubbleStep]
  split
  · rw [hp]; simp [bubbleLoop]
  · rfl

/-- C10.  Dispatching on a node whose `parentNode` is `null` computes the
one-element path `[node]`, so the capture and bubble phases visit no node
at all — whatever `event.bubbles` is — and only the target phase runs,
invoking all of the node's registrations for the type in registration
order (stated for listeners that do not call
`stopImmediatePropagation`). -/
theorem c10_detached_target_only (parent : Nat → Option Nat) (fuel tgt : Nat) (s : DState)
    (hpar : parent tgt = none)
    (h : ∀ r ∈ s.regs tgt s.ev.type, noStopImm r.act = true)
    (hprop : s.ev.propagationStopped = false)
    (himm : s.ev.immediatePropagationStopped = false) :
    computePath parent fuel tgt = [tgt]
    ∧ (dispatchEvent parent fuel tgt s).1.trace =
        s.trace ++ (s.regs tgt s.ev.type).map (fun r => (Event.AT_TARGET, tgt, r.lid)) := by
  refine ⟨computePath_parent_none parent fuel tgt hpar, ?_⟩
  obtain ⟨regs, ⟨ty, bub, can, tar, cur, ph, ps, im, dp⟩, tr, el⟩ := s
  simp only at h hprop himm
  subst hprop himm
  simp only [dispatchEvent]
  rw [computePath_parent_none parent fuel tgt hpar]
  simp only [List.dropLast_single, captureLoop]
  rw [targetStep]
  rw [if_neg (by simp)]
  rw [bubbleStep_trace_of_dropLast_nil [tgt] (by simp)]
  rw [invokeListenersAtTarget]
  have h1 := (invokeLoop_noStopImm tgt none (regs tgt ty)
    ⟨regs, ⟨ty, bub, can, some tgt, some tgt, Event.AT_TARGET, false, false, dp⟩, tr, el⟩
    h rfl).1
  rw [filter_phaseMatches_none] at h1
  exact h1

/-- The C10 registry: a capture and a non-capture listener on node 0. -/
def c10regs : Regs := fun n t =>
  if n = 0 ∧ t = "t" then
    [⟨1, Act.skip, true, false⟩, ⟨2, Act.skip, false, false⟩] else []

/-- The C10 initial state: fresh bubbling event on a never-attached node. -/
def c10state : DState := ⟨c10regs, mkEvent "t" true false, [], []⟩

/-- Witness for C10: the path is just `[0]` and both listeners fire in the
target phase even though the event bubbles. -/
theorem c10_detached_target_only_witness :
    ((fun _ : Nat => (none : Option Nat)) 0 = none)
    ∧ (∀ r ∈ c10state.regs 0 c10state.ev.type, noStopImm r.act = true)
    ∧ computePath (fun _ => none) 4 0 = [0]
    ∧ (dispatchEvent (fun _ => none) 4 0 c10state).1.trace =
        [(Event.AT_TARGET, 0, 1), (Event.AT_TARGET, 0, 2)] := by
  have h := c10_detached_target_only (fun _ => none) 4 0 c10state rfl (by decide) rfl rfl
  refine ⟨rfl, by decide, h.1, ?_⟩
  rw [h.2]
  decide

/-! ## Claims C4 and C5: propagation stops -/

/-- Splitting the snapshot loop at a tame prefix. -/
lemma invokeLoop_append_tame (tgt : Nat) (fc : Option Bool) (l1 l2 : List Registration)
    (s : DState) (h1 : ∀ r ∈ l1, tame r = true)
    (himm : s.ev.immediatePropagationStopped = false) :
    invokeLoop tgt fc (l1 ++ l2) s =
      invokeLoop tgt fc l2
        { s with trace := s.trace ++ (l1.filter (phaseMatches fc)).map
                   (fun r => (s.ev.phase, tgt, r.lid)),
                 errlog := s.errlog ++ catMap errOf (l1.filter (phaseMatches fc)) } := by
  induction l1 generalizing s with
  | nil => simp [catMap]
  | cons e rest ih =>
      have he := h1 e (by simp)
      have hrest : ∀ r ∈ rest, tame r = true := fun r hr => h1 r (by simp [hr])
      simp only [List.cons_append, invokeLoop, List.append_eq]
      cases hm : phaseMatches fc e with
      | true =>
          rw [if_pos rfl, executeListner_tame tgt e s he, if_neg (by simp [himm])]
          rw [ih _ hrest (by simp [himm])]
          simp [List.filter_cons, hm, catMap, List.append_assoc]
      | false =>
          rw [if_neg (by simp)]
          rw [ih s hrest himm]
          simp [List.filter_cons, hm]

/-- C4.  `stopPropagation()` called inside a capture listener on the root
of chain root→A→B halts advancing to the next node in the path — the
trace contains no invocation on A or B, in any phase — but the remaining
capture listeners on the root itself (the tame suffix `L2`) still fire. -/
theorem c4_stopPropagation_halts_next_node (parent : Nat → Option Nat) (f r a b sl : Nat)
    (s : DState) (L1 L2 : List Registration)
    (hpb : parent b = some a) (hpa : parent a = some r) (hpr : parent r = none)
    (hregs : s.regs r s.ev.type = L1 ++ ⟨sl, Act.stopProp, true, false⟩ :: L2)
    (hL1 : ∀ x ∈ L1, tame x = true) (hL2 : ∀ x ∈ L2, tame x = true)
    (hprop : s.ev.propagationStopped = false)
    (himm : s.ev.immediatePropagationStopped = false) :
    (dispatchEvent parent (f + 2) b s).1.trace =
      s.trace ++ (L1.filter (fun x => x.capture)).map (fun x => (Event.CAPTURING_PHASE, r, x.lid))
              ++ [(Event.CAPTURING_PHASE, r, sl)]
              ++ (L2.filter (fun x => x.capture)).map (fun x => (Event.CAPTURING_PHASE, r, x.lid)) := by
  have hpath : computePath parent (f + 2) b = [r, a, b] := by
    have h2 : computePath parent (f + 2) b = (computePath parent f r ++ [a]) ++ [b] := by
      simp [computePath, hpb, hpa]
    rw [computePath_parent_none parent f r hpr] at h2
    simpa using h2
  obtain ⟨regs, ⟨ty, bub, can, tar, cur, ph, ps, im, dp⟩, tr, el⟩ := s
  simp only at hregs hprop himm
  subst hprop himm
  simp only [dispatchEvent]
  rw [hpath]
  rw [show ([r, a, b] : List Nat).dropLast = [r, a] from rfl]
  simp only [captureLoop]
  rw [if_neg (by simp)]
  rw [invokeListeners]
  simp only
  rw [hregs]
  rw [invokeLoop_append_tame r (some true) L1 _ _ hL1 rfl]
  have hstop : invokeLoop r (some true) (⟨sl, Act.stopProp, true, false⟩ :: L2)
      ⟨regs, ⟨ty, bub, can, some b, some r, Event.CAPTURING_PHASE, false, false, dp⟩,
        tr ++ (L1.filter (phaseMatches (some true))).map
          (fun x => (Event.CAPTURING_PHASE, r, x.lid)),
        el ++ catMap errOf (L1.filter (phaseMatches (some true)))⟩ =
      ⟨regs, ⟨ty, bub, can, some b, some r, Event.CAPTURING_PHASE, true, false, dp⟩,
        ((tr ++ (L1.filter (phaseMatches (some true))).map
          (fun x => (Event.CAPTURING_PHASE, r, x.lid))) ++ [(Event.CAPTURING_PHASE, r, sl)])
          ++ (L2.filter (phaseMatches (some true))).map
            (fun x => (Event.CAPTURING_PHASE, r, x.lid)),
        (el ++ catMap errOf (L1.filter (phaseMatches (some true))))
          ++ catMap errOf (L2.filter (phaseMatches (some true)))⟩ := by
    simp only [invokeLoop]
    rw [if_pos (show phaseMatches (some true)
      (⟨sl, Act.stopProp, true, false⟩ : Registration) = true from rfl)]
    rw [show executeListner r ⟨sl, Act.stopProp, true, false⟩
        ⟨regs, ⟨ty, bub, can, some b, some r, Event.CAPTURING_PHASE, false, false, dp⟩,
          tr ++ (L1.filter (phaseMatches (some true))).map
            (fun x => (Event.CAPTURING_PHASE, r, x.lid)),
          el ++ catMap errOf (L1.filter (phaseMatches (some true)))⟩ =
        ⟨regs, ⟨ty, bub, can, some b, some r, Event.CAPTURING_PHASE, true, false, dp⟩,
          (tr ++ (L1.filter (phaseMatches (some true))).map
            (fun x => (Event.CAPTURING_PHASE, r, x.lid))) ++ [(Event.CAPTURING_PHASE, r, sl)],
          el ++ catMap errOf (L1.filter (phaseMatches (some true)))⟩ from by
      simp [executeListner, runAct, reportCaught, EvState.stopPropagation]]
    rw [if_neg (by simp)]
    rw [invokeLoop_tame _ _ _ _ hL2 rfl]
  rw [hstop]
  simp only [captureLoop]
  rw [if_pos (by simp)]
  rw [targetStep]
  rw [if_pos (by simp)]
  rw [bubbleStep]
  rw [if_neg (by simp)]
  simp [filter_phaseMatches_true, List.append_assoc]

/-- The C4 chain 0 → 1 → 2. -/
def c4par : Nat → Option Nat :=
  fun n => if n = 2 then some 1 else if n = 1 then some 0 else none

/-- The C4 registry: capture listeners around a `stopPropagation` caller on
the root, plus listeners on nodes 1 and 2 that must not fire. -/
def c4regs : Regs := fun n t =>
  if t = "t" then
    if n = 0 then [⟨1, Act.skip, true, false⟩, ⟨90, Act.skip, false, false⟩,
                   ⟨2, Act.stopProp, true, false⟩, ⟨3, Act.skip, true, false⟩]
    else if n = 1 then [⟨4, Act.skip, false, false⟩]
    else if n = 2 then [⟨5, Act.skip, true, false⟩, ⟨6, Act.skip, false, false⟩]
    else []
  else []

/-- The C4 initial state: fresh bubbling event. -/
def c4state : DState := ⟨c4regs, mkEvent "t" true false, [], []⟩

/-- Witness for C4: the root's remaining capture listener (lid 3) still
fires after the stop, and no listener of node 1 or 2 fires at all. -/
theorem c4_stopPropagation_halts_next_node_witness :
    (c4par 2 = some 1 ∧ c4par 1 = some 0 ∧ c4par 0 = none)
    ∧ c4state.regs 0 c4state.ev.type =
        [⟨1, Act.skip, true, false⟩, ⟨90, Act.skip, false, false⟩]
          ++ ⟨2, Act.stopProp, true, false⟩ :: [⟨3, Act.skip, true, false⟩]
    ∧ (dispatchEvent c4par 3 2 c4state).1.trace =
        [(Event.CAPTURING_PHASE, 0, 1), (Event.CAPTURING_PHASE, 0, 2),
         (Event.CAPTURING_PHASE, 0, 3)] := by
  refine ⟨⟨rfl, rfl, rfl⟩, by decide, ?_⟩
  rw [c4_stopPropagation_halts_next_node c4par 1 0 1 2 2 c4state
    [⟨1, Act.skip, true, false⟩, ⟨90, Act.skip, false, false⟩] [⟨3, Act.skip, true, false⟩]
    rfl rfl rfl (by decide) (by decide) (by decide) rfl rfl]
  decide

/-- C5.  `stopImmediatePropagation()` inside a capture listener on the
root of chain root→A→B halts the remaining listeners on the same node
immediately — nothing from the suffix `L2` of the root's own snapshot
fires — and also halts further path traversal: the trace ends at the
stopping listener, with no invocation on A or B in any phase. -/
theorem c5_stopImmediate_halts_same_node (parent : Nat → Option Nat) (f r a b sl : Nat)
    (s : DState) (L1 L2 : List Registration)
    (hpb : parent b = some a) (hpa : parent a = some r) (hpr : parent r = none)
    (hregs : s.regs r s.ev.type = L1 ++ ⟨sl, Act.stopImmediate, true, false⟩ :: L2)
    (hL1 : ∀ x ∈ L1, tame x = true)
    (hprop : s.ev.propagationStopped = false)
    (himm : s.ev.immediatePropagationStopped = false) :
    (dispatchEvent parent (f + 2) b s).1.trace =
      s.trace ++ (L1.filter (fun x => x.capture)).map (fun x => (Event.CAPTURING_PHASE, r, x.lid))
              ++ [(Event.CAPTURING_PHASE, r, sl)] := by
  have hpath : computePath parent (f + 2) b = [r, a, b] := by
    have h2 : computePath parent (f + 2) b = (computePath parent f r ++ [a]) ++ [b] := by
      simp [computePath, hpb, hpa]
    rw [computePath_parent_none parent f r hpr] at h2
    simpa using h2
  obtain ⟨regs, ⟨ty, bub, can, tar, cur, ph, ps, im, dp⟩, tr, el⟩ := s
  simp only at hregs hprop himm
  subst hprop himm
  simp only [dispatchEvent]
  rw [hpath]
  rw [show ([r, a, b] : List Nat).dropLast = [r, a] from rfl]
  simp only [captureLoop]
  rw [if_neg (by simp)]
  rw [invokeListeners]
  simp only
  rw [hregs]
  rw [invokeLoop_append_tame r (some true) L1 _ _ hL1 rfl]
  have hstop : invokeLoop r (some true) (⟨sl, Act.stopImmediate, true, false⟩ :: L2)
      ⟨regs, ⟨ty, bub, can, some b, some r, Event.CAPTURING_PHASE, false, false, dp⟩,
        tr ++ (L1.filter (phaseMatches (some true))).map
          (fun x => (Event.CAPTURING_PHASE, r, x.lid)),
        el ++ catMap errOf (L1.filter (phaseMatches (some true)))⟩ =
      ⟨regs, ⟨ty, bub, can, some b, some r, Event.CAPTURING_PHASE, true, true, dp⟩,
        (tr ++ (L1.filter (phaseMatches (some true))).map
          (fun x => (Event.CAPTURING_PHASE, r, x.lid))) ++ [(Event.CAPTURING_PHASE, r, sl)],
        el ++ catMap errOf (L1.filter (phaseMatches (some true)))⟩ := by
    simp only [invokeLoop]
    rw [if_pos (show phaseMatches (some true)
      (⟨sl, Act.stopImmediate, true, false⟩ : Registration) = true from rfl)]
    rw [show executeListner r ⟨sl, Act.stopImmediate, true, false⟩
        ⟨regs, ⟨ty, bub, can, some b, some r, Event.CAPTURING_PHASE, false, false, dp⟩,
          tr ++ (L1.filter (phaseMatches (some true))).map
            (fun x => (Event.CAPTURING_PHASE, r, x.lid)),
          el ++ catMap errOf (L1.filter (phaseMatches (some true)))⟩ =
        ⟨regs, ⟨ty, bub, can, some b, some r, Event.CAPTURING_PHASE, true, true, dp⟩,
          (tr ++ (L1.filter (phaseMatches (some true))).map
            (fun x => (Event.CAPTURING_PHASE, r, x.lid))) ++ [(Event.CAPTURING_PHASE, r, sl)],
          el ++ catMap errOf (L1.filter (phaseMatches (some true)))⟩ from by
      simp [executeListner, runAct, reportCaught, EvState.stopImmediatePropagation]]
    rw [if_pos (by simp)]
  rw [hstop]
  simp only [captureLoop]
  rw [if_pos (by simp)]
  rw [targetStep]
  rw [if_pos (by simp)]
  rw [bubbleStep]
  rw [if_neg (by simp)]
  simp [filter_phaseMatches_true, List.append_assoc]

/-- The C5 chain 0 → 1 → 2. -/
def c5par : Nat → Option Nat :=
  fun n => if n = 2 then some 1 else if n = 1 then some 0 else none

/-- The C5 registry: a `stopImmediatePropagation` caller on the root with a
capture listener after it, plus listeners on nodes 1 and 2. -/
def c5regs : Regs := fun n t =>
  if t = "t" then
    if n = 0 then [⟨1, Act.skip, true, false⟩, ⟨2, Act.stopImmediate, true, false⟩,
                   ⟨3, Act.skip, true, false⟩]
    else if n = 1 then [⟨4, Act.skip, false, false⟩]
    else if n = 2 then [⟨5, Act.skip, false, false⟩]
    else []
  else []

/-- The C5 initial state: fresh bubbling event. -/
def c5state : DState := ⟨c5regs, mkEvent "t" true false, [], []⟩

/-- Witness for C5: the root's later capture listener (lid 3) does NOT
fire, and neither does anything on node 1 or 2. -/
theorem c5_stopImmediate_halts_same_node_witness :
    (c5par 2 = some 1 ∧ c5par 1 = some 0 ∧ c5par 0 = none)
    ∧ c5state.regs 0 c5state.ev.type =
        [⟨1, Act.skip, true, false⟩]
          ++ ⟨2, Act.stopImmediate, true, false⟩ :: [⟨3, Act.skip, true, false⟩]
    ∧ (dispatchEvent c5par 3 2 c5state).1.trace =
        [(Event.CAPTURING_PHASE, 0, 1), (Event.CAPTURING_PHASE, 0, 2)] := by
  refine ⟨⟨rfl, rfl, rfl⟩, by decide, ?_⟩
  rw [c5_stopImmediate_halts_same_node c5par 1 0 1 2 2 c5state
    [⟨1, Act.skip, true, false⟩] [⟨3, Act.skip, true, false⟩]
    rfl rfl rfl (by decide) (by decide) rfl rfl]
  decide

/-! ## Claim C3: one-shot listeners -/

/-- The C3 registry: the SAME listener (lid 7) registered twice with the
same capture flag, once with `once=true` and once with `once=false`. -/
def c3regs : Regs := fun n t =>
  if n = 0 ∧ t = "t" then
    [⟨7, Act.skip, false, true⟩, ⟨7, Act.skip, false, false⟩] else []

/-- The C3 initial state. -/
def c3state : DState := ⟨c3regs, mkEvent "t" false false, [], []⟩

/-- Counterexample to C3 as stated: before invoking the `once`
registration, `_executeListner` calls `removeEventListener(type, listener,
capture)`, which removes EVERY live registration matching that listener
and capture flag — here both the `once` entry and its non-`once`
duplicate — not "that exact registration (and only that registration)".
After the dispatch the live registry is empty although a non-one-shot
registration had been present. -/
theorem c3_counterexample :
    c3state.regs 0 "t" = [⟨7, Act.skip, false, true⟩, ⟨7, Act.skip, false, false⟩]
    ∧ (executeListner 0 ⟨7, Act.skip, false, true⟩ c3state).regs 0 "t" = []
    ∧ (dispatchEvent (fun _ => none) 1 0 c3state).1.regs 0 "t" = [] :=
  ⟨by decide, by decide, by decide⟩

lemma bubbleStep_nilpath (path : List Nat) (hp : path.dropLast = []) (s3 : DState) :
    (bubbleStep path s3).trace = s3.trace ∧ (bubbleStep path s3).regs = s3.regs := by
  rw [bubbleStep]
  split
  · rw [hp]; simp [bubbleLoop]
  · exact ⟨rfl, rfl⟩

/-- Dispatch on a detached node with no registration for the type is a
trace no-op. -/
lemma dispatchEvent_trace_no_regs (parent : Nat → Option Nat) (fuel tgt : Nat) (s : DState)
    (hpar : parent tgt = none) (hr : s.regs tgt s.ev.type = []) :
    (dispatchEvent parent fuel tgt s).1.trace = s.trace := by
  obtain ⟨regs, ⟨ty, bub, can, tar, cur, ph, ps, im, dp⟩, tr, el⟩ := s
  simp only at hr
  simp only [dispatchEvent]
  rw [computePath_parent_none parent fuel tgt hpar]
  simp only [List.dropLast_single, captureLoop]
  rw [(bubbleStep_nilpath [tgt] (by simp) _).1]
  rw [targetStep]
  split
  · rfl
  · rw [invokeListenersAtTarget]
    simp only
    rw [hr]
    simp [invokeLoop]

/-- C3, amended.  With a single `once=true` registration (no duplicate of
the same listener and capture flag on the node), the behaviour claimed
holds: the first dispatch invokes it exactly once in the target phase,
the registration is removed from the live registry (before its callback
runs, and from the registry rather than the snapshot), and a second
dispatch of a fresh event of the same type on the same node invokes
nothing — so the listener fires exactly once across the two sequential
dispatches. -/
theorem c3_once_fires_once (parent : Nat → Option Nat) (fuel fuel2 tgt l : Nat) (cap : Bool)
    (s : DState) (hpar : parent tgt = none)
    (hregs : s.regs tgt s.ev.type = [⟨l, Act.skip, cap, true⟩])
    (hprop : s.ev.propagationStopped = false)
    (himm : s.ev.immediatePropagationStopped = false) :
    (dispatchEvent parent fuel tgt s).1.trace = s.trace ++ [(Event.AT_TARGET, tgt, l)]
    ∧ (dispatchEvent parent fuel tgt s).1.regs tgt s.ev.type = []
    ∧ ∀ ev2 : EvState, ev2.type = s.ev.type →
        (dispatchEvent parent fuel2 tgt
          ⟨(dispatchEvent parent fuel tgt s).1.regs, ev2,
            (dispatchEvent parent fuel tgt s).1.trace,
            (dispatchEvent parent fuel tgt s).1.errlog⟩).1.trace =
          (dispatchEvent parent fuel tgt s).1.trace := by
  obtain ⟨regs, ⟨ty, bub, can, tar, cur, ph, ps, im, dp⟩, tr, el⟩ := s
  simp only at hregs hprop himm
  subst hprop himm
  have h1 : ((dispatchEvent parent fuel tgt
       ⟨regs, ⟨ty, bub, can, tar, cur, ph, false, false, dp⟩, tr, el⟩).1.trace =
        tr ++ [(Event.AT_TARGET, tgt, l)])
      ∧ (dispatchEvent parent fuel tgt
       ⟨regs, ⟨ty, bub, can, tar, cur, ph, false, false, dp⟩, tr, el⟩).1.regs =
        removeEventListener regs tgt ty l cap := by
    simp only [dispatchEvent]
    rw [computePath_parent_none parent fuel tgt hpar]
    simp only [List.dropLast_single, captureLoop]
    have htg : targetStep tgt
        ⟨regs, ⟨ty, bub, can, some tgt, cur, Event.CAPTURING_PHASE, false, false, dp⟩, tr, el⟩ =
        ⟨removeEventListener regs tgt ty l cap,
          ⟨ty, bub, can, some tgt, some tgt, Event.AT_TARGET, false, false, dp⟩,
          tr ++ [(Event.AT_TARGET, tgt, l)], el⟩ := by
      rw [targetStep]
      rw [if_neg (by simp)]
      rw [invokeListenersAtTarget]
      simp only
      rw [hregs]
      simp only [invokeLoop]
      rw [if_pos (show phaseMatches none (⟨l, Act.skip, cap, true⟩ : Registration) = true from rfl)]
      rw [show executeListner tgt ⟨l, Act.skip, cap, true⟩
          ⟨regs, ⟨ty, bub, can, some tgt, some tgt, Event.AT_TARGET, false, false, dp⟩, tr, el⟩ =
          ⟨removeEventListener regs tgt ty l cap,
            ⟨ty, bub, can, some tgt, some tgt, Event.AT_TARGET, false, false, dp⟩,
            tr ++ [(Event.AT_TARGET, tgt, l)], el⟩ from by
        simp [executeListner, runAct, reportCaught]]
      rw [if_neg (by simp)]
    rw [htg]
    exact ⟨(bubbleStep_nilpath [tgt] (by simp) _).1,
           (bubbleStep_nilpath [tgt] (by simp) _).2⟩
  have hempty : (dispatchEvent parent fuel tgt
      ⟨regs, ⟨ty, bub, can, tar, cur, ph, false, false, dp⟩, tr, el⟩).1.regs tgt ty = [] := by
    rw [h1.2]
    simp [removeEventListener, hregs]
  refine ⟨h1.1, hempty, ?_⟩
  intro ev2 hty
  simp only at hty
  exact dispatchEvent_trace_no_regs parent fuel2 tgt _ hpar (by rw [hty]; exact hempty)

/-- The C3 amended-claim registry: one `once=true` listener on node 0. -/
def c3aregs : Regs := fun n t =>
  if n = 0 ∧ t = "t" then [⟨7, Act.skip, false, true⟩] else []

/-- The C3 amended-claim initial state. -/
def c3astate : DState := ⟨c3aregs, mkEvent "t" false false, [], []⟩

/-- Witness for the amended C3: the once listener fires exactly once
across two sequential dispatches, and the registry is empty after the
first dispatch. -/
theorem c3_once_fires_once_witness :
    c3astate.regs 0 c3astate.ev.type = [⟨7, Act.skip, false, true⟩]
    ∧ (dispatchEvent (fun _ => none) 2 0 c3astate).1.trace = [(Event.AT_TARGET, 0, 7)]
    ∧ (dispatchEvent (fun _ => none) 2 0 c3astate).1.regs 0 "t" = []
    ∧ (dispatchEvent (fun _ => none) 2 0
        ⟨(dispatchEvent (fun _ => none) 2 0 c3astate).1.regs, mkEvent "t" false false,
          (dispatchEvent (fun _ => none) 2 0 c3astate).1.trace,
          (dispatchEvent (fun _ => none) 2 0 c3astate).1.errlog⟩).1.trace =
        (dispatchEvent (fun _ => none) 2 0 c3astate).1.trace := by
  have h := c3_once_fires_once (fun _ => none) 2 2 0 7 false c3astate rfl (by decide) rfl rfl
  refine ⟨by decide, ?_, ?_, ?_⟩
  · rw [h.1]; decide
  · exact h.2.1
  · exact h.2.2 (mkEvent "t" false false) rfl

/-! ## Claim C6: structural reference errors -/

lemma idxOf_eq_none_iff (x : Nat) (l : List Nat) : idxOf x l = none ↔ x ∉ l := by
  induction l with
  | nil => simp [idxOf]
  | cons y ys ih =>
      by_cases hy : y = x
      · subst hy
        simp [idxOf]
      · simp [idxOf, hy, Option.map_eq_none', ih, Ne.symm hy]

lemma idxOf_some_decomp (x : Nat) (l : List Nat) (i : Nat) (h : idxOf x l = some i) :
    l.take i ++ x :: l.drop (i + 1) = l ∧ x ∉ l.take i := by
  induction l generalizing i with
  | nil => simp [idxOf] at h
  | cons y ys ih =>
      by_cases hy : y = x
      · rw [idxOf, if_pos hy] at h
        obtain rfl : (0 : Nat) = i := Option.some.inj h
        subst hy
        simp
      · rw [idxOf, if_neg hy] at h
        rcases ho : idxOf x ys with _ | j
        · rw [ho] at h; simp at h
        · rw [ho] at h
          simp only [Option.map_some'] at h
          obtain rfl : j + 1 = i := Option.some.inj h
          obtain ⟨hd, hn⟩ := ih j ho
          constructor
          · simpa [List.take_succ_cons, List.drop_succ_cons] using hd
          · simp [List.take_succ_cons, hn, Ne.symm hy]

lemma idxOf_mem (x : Nat) (l : List Nat) (i : Nat) (h : idxOf x l = some i) : x ∈ l := by
  obtain ⟨hd, _⟩ := idxOf_some_decomp x l i h
  rw [← hd]
  simp

lemma mem_idxOf (x : Nat) (l : List Nat) (h : x ∈ l) : ∃ i, idxOf x l = some i := by
  rcases ho : idxOf x l with _ | i
  · exact absurd h ((idxOf_eq_none_iff x l).mp ho)
  · exact ⟨i, rfl⟩

/-- C6.  For every heap, receiver `r` and node `x` not currently in `r`'s
children, `removeChild`, `replaceChild` (any new child `n`) and
`insertBefore` (any new node `n`) fail with their respective
`StructuralReferenceError` messages.  In this pure embedding an erroring
operation returns only the error — no heap — so the tree is left exactly
as before the failing call: the not-found check happens before any
mutation in the source, and the embedding transcribes that order. -/
theorem c6_structural_reference_error (h : Heap) (r x n : Nat)
    (hx : x ∉ (h r).childNodes) :
    removeChild h r x = Except.error "Node not found"
    ∧ replaceChild h r n x = Except.error "Node not Found"
    ∧ insertBefore h r n (some x) = Except.error "Reference node not found" := by
  have hidx : idxOf x (h r).childNodes = none := (idxOf_eq_none_iff _ _).mpr hx
  exact ⟨by rw [removeChild, hidx], by rw [replaceChild, hidx], by rw [insertBefore, hidx]⟩

/-- The C6 heap: node 0 with single child 1. -/
def c6heap : Heap := fun m =>
  if m = 0 then ⟨none, [1]⟩ else if m = 1 then ⟨some 0, []⟩ else ⟨none, []⟩

/-- Witness for C6: node 5 is not a child of node 0, so all three
operations fail fast with their structural errors. -/
theorem c6_structural_reference_error_witness :
    (5 ∉ (c6heap 0).childNodes)
    ∧ removeChild c6heap 0 5 = Except.error "Node not found"
    ∧ replaceChild c6heap 0 1 5 = Except.error "Node not Found"
    ∧ insertBefore c6heap 0 1 (some 5) = Except.error "Reference node not found" :=
  ⟨by decide, (c6_structural_reference_error c6heap 0 5 1 (by decide)).1,
   (c6_structural_reference_error c6heap 0 5 1 (by decide)).2.1,
   (c6_structural_reference_error c6heap 0 5 1 (by decide)).2.2⟩

/-! ## Claim C7: tree invariants under mutation -/

lemma setParent_parent (h : Heap) (n : Nat) (p : Option Nat) (m : Nat) :
    ((setParent h n p) m).parentNode = if m = n then p else (h m).parentNode := by
  by_cases hm : m = n <;> simp [setParent, hupdate, hm]

lemma setParent_children (h : Heap) (n : Nat) (p : Option Nat) (m : Nat) :
    ((setParent h n p) m).childNodes = (h m).childNodes := by
  by_cases hm : m = n <;> simp [setParent, hupdate, hm]

lemma setChildren_children (h : Heap) (n : Nat) (cs : List Nat) (m : Nat) :
    ((setChildren h n cs) m).childNodes = if m = n then cs else (h m).childNodes := by
  by_cases hm : m = n <;> simp [setChildren, hupdate, hm]

lemma setChildren_parent (h : Heap) (n : Nat) (cs : List Nat) (m : Nat) :
    ((setChildren h n cs) m).parentNode = (h m).parentNode := by
  by_cases hm : m = n <;> simp [setChildren, hupdate, hm]

lemma nodup_middle {l1 l2 : List Nat} {c : Nat} (h : (l1 ++ c :: l2).Nodup) :
    (l1 ++ l2).Nodup ∧ c ∉ l1 ∧ c ∉ l2 := by
  simp only [List.nodup_append, List.nodup_cons, List.disjoint_cons_right] at h ⊢
  tauto

/-- Characterisation of the detach prologue on a well-formed heap: it
succeeds, clears only `c`'s parent reference, removes `c` from the one
children list holding it, and touches no other list. -/
lemma detach_spec (h : Heap) (c : Nat) (hwf : WF h) :
    ∃ h', detach h c = Except.ok h'
      ∧ (∀ n, (h' n).parentNode = if n = c then none else (h n).parentNode)
      ∧ (∀ q x, x ∈ (h' q).childNodes ↔ (x ∈ (h q).childNodes ∧ x ≠ c))
      ∧ (∀ q, (h c).parentNode ≠ some q → (h' q).childNodes = (h q).childNodes)
      ∧ (∀ q, (h' q).childNodes.Nodup) := by
  rcases hp : (h c).parentNode with _ | p
  · refine ⟨h, by simp [detach, hp, pure, Except.pure], ?_, ?_, fun _ _ => rfl, hwf.2⟩
    · intro n
      by_cases hn : n = c
      · subst hn; simp [hp]
      · simp [hn]
    · intro q x
      constructor
      · intro hxq
        refine ⟨hxq, ?_⟩
        rintro rfl
        have := (hwf.1 q x).mp hxq
        rw [hp] at this
        cases this
      · exact fun hx => hx.1
  · have hcp : c ∈ (h p).childNodes := (hwf.1 p c).mpr hp
    obtain ⟨i, hi⟩ := mem_idxOf c _ hcp
    obtain ⟨hdec, hnt⟩ := idxOf_some_decomp c _ i hi
    have hnodup := hwf.2 p
    have hmid : ((h p).childNodes.take i ++ c :: (h p).childNodes.drop (i + 1)).Nodup := by
      rw [hdec]; exact hnodup
    obtain ⟨hndTD, hcT, hcD⟩ := nodup_middle hmid
    refine ⟨setChildren (setParent h c none) p
        (spliceRemove ((setParent h c none) p).childNodes i),
      by simp [detach, hp, removeChild, hi], ?_, ?_, ?_, ?_⟩
    · intro n
      rw [setChildren_parent, setParent_parent]
    · intro q x
      rw [setChildren_children]
      by_cases hq : q = p
      · subst hq
        rw [if_pos rfl, setParent_children]
        unfold spliceRemove
        constructor
        · intro hx
          rw [List.mem_append] at hx
          constructor
          · rw [← hdec, List.mem_append, List.mem_cons]
            rcases hx with hx | hx
            · exact Or.inl hx
            · exact Or.inr (Or.inr hx)
          · rintro rfl
            rcases hx with hx | hx
            · exact hcT hx
            · exact hcD hx
        · rintro ⟨hx, hne⟩
          rw [← hdec, List.mem_append, List.mem_cons] at hx
          rw [List.mem_append]
          rcases hx with hx | hx | hx
          · exact Or.inl hx
          · exact absurd hx hne
          · exact Or.inr hx
      · rw [if_neg hq, setParent_children]
        constructor
        · intro hx
          refine ⟨hx, ?_⟩
          rintro rfl
          have := (hwf.1 q x).mp hx
          rw [hp] at this
          exact hq (Option.some.inj this).symm
        · exact fun hx => hx.1
    · intro q hq
      have hqp : q ≠ p := fun e => hq (by rw [e])
      rw [setChildren_children, if_neg hqp, setParent_children]
    · intro q
      rw [setChildren_children]
      by_cases hq : q = p
      · subst hq
        rw [if_pos rfl, setParent_children]
        exact hndTD
      · rw [if_neg hq, setParent_children]
        exact hwf.2 q

/-- The detach characterisation alone implies well-formedness of the
detached heap. -/
lemma WF_of_detach (h h' : Heap) (c : Nat) (hwf : WF h)
    (hpar : ∀ n, (h' n).parentNode = if n = c then none else (h n).parentNode)
    (hmem : ∀ q x, x ∈ (h' q).childNodes ↔ (x ∈ (h q).childNodes ∧ x ≠ c))
    (hnd : ∀ q, (h' q).childNodes.Nodup) : WF h' := by
  constructor
  · intro p n
    rw [hmem p n, hpar n]
    by_cases hn : n = c
    · subst hn; simp
    · simp only [if_neg hn]
      rw [hwf.1 p n]
      simp [hn]
  · exact hnd

/-- Attaching a fully detached node `c` under `tgt` with any
duplicate-free children list holding exactly the old children plus `c`
preserves well-formedness. -/
lemma attach_WF (h' : Heap) (c tgt : Nat) (hWF : WF h')
    (hc : ∀ q, c ∉ (h' q).childNodes)
    (cl : List Nat)
    (hmem : ∀ x, x ∈ cl ↔ (x ∈ (h' tgt).childNodes ∨ x = c))
    (hnd : cl.Nodup) :
    WF (setChildren (setParent h' c (some tgt)) tgt cl) := by
  constructor
  · intro p n
    rw [setChildren_children, setChildren_parent, setParent_parent]
    by_cases hp : p = tgt
    · subst hp
      rw [if_pos rfl, hmem n]
      by_cases hn : n = c
      · subst hn; simp
      · rw [if_neg hn]
        simp only [hn, or_false]
        exact hWF.1 p n
    · rw [if_neg hp, setParent_children]
      by_cases hn : n = c
      · subst hn
        simp only [if_pos rfl]
        constructor
        · intro hx; exact absurd hx (hc p)
        · intro hx; exact absurd (Option.some.inj hx).symm hp
      · rw [if_neg hn]
        exact hWF.1 p n
  · intro p
    rw [setChildren_children]
    by_cases hp : p = tgt
    · rw [if_pos hp]; exact hnd
    · rw [if_neg hp, setParent_children]; exact hWF.2 p

lemma appendChild_WF (h : Heap) (tgt c : Nat) (hwf : WF h) (h3 : Heap)
    (hok : appendChild h tgt c = Except.ok h3) : WF h3 := by
  obtain ⟨h', hdok, hpar, hmem, hoth, hnd⟩ := detach_spec h c hwf
  have hWF' : WF h' := WF_of_detach h h' c hwf hpar hmem hnd
  have hc : ∀ q, c ∉ (h' q).childNodes := fun q hq => ((hmem q c).mp hq).2 rfl
  rw [appendChild, hdok] at hok
  simp only [Bind.bind, Except.bind, pure, Except.pure] at hok
  injection hok with hok
  subst hok
  have hch : ((setParent h' c (some tgt)) tgt).childNodes = (h' tgt).childNodes :=
    setParent_children h' c (some tgt) tgt
  rw [hch]
  refine attach_WF h' c tgt hWF' hc _ (by simp) ?_
  simp only [List.nodup_append, List.nodup_cons]
  refine ⟨hnd tgt, by simp, ?_⟩
  intro a ha hb
  rcases List.mem_singleton.mp hb with rfl
  exact hc tgt ha

lemma removeChild_WF (h : Heap) (tgt c : Nat) (hwf : WF h) (h2 : Heap)
    (hok : removeChild h tgt c = Except.ok h2) : WF h2 := by
  have hcm : c ∈ (h tgt).childNodes := by
    rcases hio : idxOf c (h tgt).childNodes with _ | i
    · rw [removeChild, hio] at hok
      exact absurd hok (by simp)
    · exact idxOf_mem c _ i hio
  have hp : (h c).parentNode = some tgt := (hwf.1 tgt c).mp hcm
  have hd : detach h c = removeChild h tgt c := by rw [detach, hp]
  obtain ⟨h', hdok, hpar, hmem, hoth, hnd⟩ := detach_spec h c hwf
  rw [hd, hok] at hdok
  injection hdok with hdok
  subst hdok
  exact WF_of_detach h h2 c hwf hpar hmem hnd

lemma insertBefore_WF (h : Heap) (tgt nn : Nat) (ref : Option Nat) (hwf : WF h) (h3 : Heap)
    (hok : insertBefore h tgt nn ref = Except.ok h3) : WF h3 := by
  cases ref with
  | none =>
      rw [insertBefore] at hok
      exact appendChild_WF h tgt nn hwf h3 hok
  | some r =>
      rw [insertBefore] at hok
      rcases hio : idxOf r (h tgt).childNodes with _ | idx
      · rw [hio] at hok
        exact absurd hok (by simp)
      · rw [hio] at hok
        obtain ⟨h', hdok, hpar, hmem, hoth, hnd⟩ := detach_spec h nn hwf
        have hWF' : WF h' := WF_of_detach h h' nn hwf hpar hmem hnd
        have hc : ∀ q, nn ∉ (h' q).childNodes := fun q hq => ((hmem q nn).mp hq).2 rfl
        rw [hdok] at hok
        simp only [Bind.bind, Except.bind, pure, Except.pure] at hok
        injection hok with hok
        subst hok
        have hch : ((setParent h' nn (some tgt)) tgt).childNodes = (h' tgt).childNodes :=
          setParent_children h' nn (some tgt) tgt
        rw [hch]
        refine attach_WF h' nn tgt hWF' hc _ ?_ ?_
        · intro x
          unfold spliceInsert
          constructor
          · intro hx
            rcases List.mem_append.mp hx with hx | hx
            · exact Or.inl (List.take_subset _ _ hx)
            · rcases List.mem_cons.mp hx with rfl | hx
              · exact Or.inr rfl
              · exact Or.inl (List.drop_subset _ _ hx)
          · intro hx
            rcases hx with hx | rfl
            · rw [← List.take_append_drop idx ((h' tgt).childNodes)] at hx
              rcases List.mem_append.mp hx with hx | hx
              · exact List.mem_append.mpr (Or.inl hx)
              · exact List.mem_append.mpr (Or.inr (List.mem_cons_of_mem _ hx))
            · exact List.mem_append.mpr (Or.inr (List.mem_cons_self _ _))
        · unfold spliceInsert
          have hperm := @List.perm_middle _ nn
            ((h' tgt).childNodes.take idx) ((h' tgt).childNodes.drop idx)
          rw [List.take_append_drop] at hperm
          exact hperm.nodup_iff.mpr (List.nodup_cons.mpr ⟨hc tgt, hnd tgt⟩)

lemma replaceChild_WF (h : Heap) (tgt nc oc : Nat) (hwf : WF h)
    (hnc : nc ∉ (h tgt).childNodes) (h4 : Heap)
    (hok : replaceChild h tgt nc oc = Except.ok h4) : WF h4 := by
  rw [replaceChild] at hok
  rcases hio : idxOf oc (h tgt).childNodes with _ | idx
  · rw [hio] at hok
    exact absurd hok (by simp)
  · rw [hio] at hok
    obtain ⟨h', hdok, hpar, hmem, hoth, hnd⟩ := detach_spec h nc hwf
    rw [hdok] at hok
    simp only [Bind.bind, Except.bind, pure, Except.pure] at hok
    injection hok with hok
    subst hok
    obtain ⟨hdec, hocT⟩ := idxOf_some_decomp oc _ idx hio
    have hocm : oc ∈ (h tgt).childNodes := idxOf_mem oc _ idx hio
    have hpoc : (h oc).parentNode = some tgt := (hwf.1 tgt oc).mp hocm
    have hncpar : (h nc).parentNode ≠ some tgt := fun hcon => hnc ((hwf.1 tgt nc).mpr hcon)
    have hne : nc ≠ oc := fun e => hnc (e ▸ hocm)
    have hch' : (h' tgt).childNodes = (h tgt).childNodes := hoth tgt hncpar
    have hinner : ((setParent (setParent h' oc none) nc (some tgt)) tgt).childNodes =
        (h tgt).childNodes := by
      rw [setParent_children, setParent_children, hch']
    rw [hinner]
    have hmid : ((h tgt).childNodes.take idx ++ oc :: (h tgt).childNodes.drop (idx + 1)).Nodup := by
      rw [hdec]; exact hwf.2 tgt
    obtain ⟨hndTD, hocT', hocD⟩ := nodup_middle hmid
    have hncT : nc ∉ (h tgt).childNodes.take idx := fun hx => hnc (List.take_subset _ _ hx)
    have hncD : nc ∉ (h tgt).childNodes.drop (idx + 1) := fun hx => hnc (List.drop_subset _ _ hx)
    constructor
    · intro p x
      rw [setChildren_children, setChildren_parent, setParent_parent, setParent_parent]
      by_cases hp2 : p = tgt
      · subst hp2
        rw [if_pos rfl]
        unfold setIdx
        by_cases hxnc : x = nc
        · subst hxnc
          simp only [if_pos rfl]
          constructor
          · intro _; rfl
          · intro _; exact List.mem_append.mpr (Or.inr (List.mem_cons_self _ _))
        · rw [if_neg hxnc]
          by_cases hxoc : x = oc
          · subst hxoc
            rw [if_pos rfl]
            constructor
            · intro hx
              rcases List.mem_append.mp hx with hx | hx
              · exact absurd hx hocT'
              · rcases List.mem_cons.mp hx with he | hx
                · exact absurd he.symm hne
                · exact absurd hx hocD
            · intro hx
              exact absurd hx (by simp)
          · rw [if_neg hxoc, hpar x, if_neg hxnc, ← hwf.1 p x]
            constructor
            · intro hx
              rcases List.mem_append.mp hx with hx | hx
              · rw [← hdec]
                exact List.mem_append.mpr (Or.inl hx)
              · rcases List.mem_cons.mp hx with he | hx
                · exact absurd he hxnc
                · rw [← hdec]
                  exact List.mem_append.mpr (Or.inr (List.mem_cons_of_mem _ hx))
            · intro hx
              rw [← hdec] at hx
              rcases List.mem_append.mp hx with hx | hx
              · exact List.mem_append.mpr (Or.inl hx)
              · rcases List.mem_cons.mp hx with he | hx
                · exact absurd he hxoc
                · exact List.mem_append.mpr (Or.inr (List.mem_cons_of_mem _ hx))
      · rw [if_neg hp2, setParent_children, setParent_children]
        by_cases hxnc : x = nc
        · subst hxnc
          rw [if_pos rfl]
          constructor
          · intro hx
            exact absurd rfl ((hmem p x).mp hx).2
          · intro hx
            exact absurd (Option.some.inj hx) (fun e => hp2 e.symm)
        · rw [if_neg hxnc]
          by_cases hxoc : x = oc
          · subst hxoc
            rw [if_pos rfl]
            constructor
            · intro hx
              have h1 := ((hmem p x).mp hx).1
              have h2 := (hwf.1 p x).mp h1
              rw [hpoc] at h2
              exact absurd (Option.some.inj h2).symm hp2
            · intro hx
              exact absurd hx (by simp)
          · rw [if_neg hxoc, hpar x, if_neg hxnc, hmem p x]
            constructor
            · rintro ⟨hx, _⟩
              exact (hwf.1 p x).mp hx
            · intro hx
              exact ⟨(hwf.1 p x).mpr hx, hxnc⟩
    · intro p
      rw [setChildren_children]
      by_cases hp2 : p = tgt
      · rw [if_pos hp2]
        unfold setIdx
        have hperm := @List.perm_middle _ nc
          ((h tgt).childNodes.take idx) ((h tgt).childNodes.drop (idx + 1))
        refine hperm.nodup_iff.mpr (List.nodup_cons.mpr ⟨?_, hndTD⟩)
        intro hx
        rcases List.mem_append.mp hx with hx | hx
        · exact hncT hx
        · exact hncD hx
      · rw [if_neg hp2, setParent_children, setParent_children]
        exact hnd p

/-- C7, amended.  Starting from a tree satisfying the single-parent
bidirectional invariant (`WF`: a node is in a parent's children exactly
when its parent reference points there — which forces at most one parent —
and children lists are duplicate-free), `appendChild`, `removeChild` and
`insertBefore` preserve the invariant whenever they succeed, and
`replaceChild` preserves it when the new child is not already a child of
the receiver.  Acyclicity is NOT preserved in general, and `replaceChild`
with an aliased new child breaks even the bidirectional invariant (see the
counterexample). -/
theorem c7_mutation_preserves_invariants (h : Heap) (hwf : WF h) :
    (∀ tgt c h', appendChild h tgt c = Except.ok h' → WF h')
    ∧ (∀ tgt c h', removeChild h tgt c = Except.ok h' → WF h')
    ∧ (∀ tgt nn ref h', insertBefore h tgt nn ref = Except.ok h' → WF h')
    ∧ (∀ tgt nc oc h', nc ∉ (h tgt).childNodes →
        replaceChild h tgt nc oc = Except.ok h' → WF h') :=
  ⟨fun tgt c h' => appendChild_WF h tgt c hwf h',
   fun tgt c h' => removeChild_WF h tgt c hwf h',
   fun tgt nn ref h' => insertBefore_WF h tgt nn ref hwf h',
   fun tgt nc oc h' hnc => replaceChild_WF h tgt nc oc hwf hnc h'⟩

/-- A well-formed heap: node 0 with children `[1, 2]`. -/
def c7bad : Heap := fun m =>
  if m = 0 then ⟨none, [1, 2]⟩ else if m = 1 then ⟨some 0, []⟩
  else if m = 2 then ⟨some 0, []⟩ else ⟨none, []⟩

/-- The heap after `replaceChild(newChild = 1, oldChild = 2)` on node 0,
where node 1 is already the receiver's first child. -/
def c7badRes : Heap :=
  match replaceChild c7bad 0 1 2 with
  | .ok h2 => h2
  | .error _ => c7bad

/-- The heap after `appendChild(1)` on node 1 itself. -/
def c7cycleRes : Heap :=
  match appendChild c7bad 1 1 with
  | .ok h2 => h2
  | .error _ => c7bad

lemma c7bad_WF : WF c7bad := by
  constructor
  · intro p n
    constructor
    · intro hn
      by_cases hp0 : p = 0
      · subst hp0
        have hn' : n = 1 ∨ n = 2 := by simpa [c7bad] using hn
        rcases hn' with rfl | rfl <;> decide
      · by_cases hp1 : p = 1
        · subst hp1; simp [c7bad] at hn
        · by_cases hp2 : p = 2
          · subst hp2; simp [c7bad] at hn
          · simp [c7bad, hp0, hp1, hp2] at hn
    · intro hp
      by_cases hn1 : n = 1
      · subst hn1
        have h0 : (some 0 : Option Nat) = some p := by simpa [c7bad] using hp
        obtain rfl : (0 : Nat) = p := Option.some.inj h0
        decide
      · by_cases hn2 : n = 2
        · subst hn2
          have h0 : (some 0 : Option Nat) = some p := by simpa [c7bad] using hp
          obtain rfl : (0 : Nat) = p := Option.some.inj h0
          decide
        · exfalso
          by_cases hn0 : n = 0
          · subst hn0; simp [c7bad] at hp
          · simp [c7bad, hn0, hn1, hn2] at hp
  · intro p
    by_cases hp0 : p = 0
    · subst hp0; decide
    · by_cases hp1 : p = 1
      · subst hp1; decide
      · by_cases hp2 : p = 2
        · subst hp2; decide
        · simp [c7bad, hp0, hp1, hp2]

/-- Counterexample to C7 as stated.  From the well-formed tree
`0 → [1, 2]`: (a) `replaceChild(1, 2)` on node 0, with the new child
already a child of the receiver, succeeds but produces a heap where node 2
is still in node 0's children while its parent reference is `null` — the
bidirectional invariant is broken (the stale `indexOf` computed before the
detach assigns the wrong slot); (b) `appendChild` accepts a node as its
own child, making node 1 its own parent — a cycle. -/
theorem c7_counterexample :
    WF c7bad
    ∧ (replaceChild c7bad 0 1 2).isOk = true
    ∧ (c7badRes 0).childNodes = [2, 1]
    ∧ (c7badRes 2).parentNode = none
    ∧ ¬ WF c7badRes
    ∧ (appendChild c7bad 1 1).isOk = true
    ∧ (c7cycleRes 1).childNodes = [1]
    ∧ (c7cycleRes 1).parentNode = some 1 := by
  refine ⟨c7bad_WF, by decide, by decide, by decide, ?_, by decide, by decide, by decide⟩
  intro hw
  have h2 := (hw.1 0 2).mp (by decide)
  exact absurd h2 (by decide)

/-- A second well-formed heap: node 0 with single child 1. -/
def c7heap : Heap := fun m =>
  if m = 0 then ⟨none, [1]⟩ else if m = 1 then ⟨some 0, []⟩ else ⟨none, []⟩

/-- The heap after appending the fresh node 2 under node 0. -/
def c7res : Heap :=
  match appendChild c7heap 0 2 with
  | .ok h2 => h2
  | .error _ => c7heap

lemma c7heap_WF : WF c7heap := by
  constructor
  · intro p n
    constructor
    · intro hn
      by_cases hp0 : p = 0
      · subst hp0
        have hn' : n = 1 := by simpa [c7heap] using hn
        subst hn'; decide
      · by_cases hp1 : p = 1
        · subst hp1; simp [c7heap] at hn
        · simp [c7heap, hp0, hp1] at hn
    · intro hp
      by_cases hn1 : n = 1
      · subst hn1
        have h0 : (some 0 : Option Nat) = some p := by simpa [c7heap] using hp
        obtain rfl : (0 : Nat) = p := Option.some.inj h0
        decide
      · exfalso
        by_cases hn0 : n = 0
        · subst hn0; simp [c7heap] at hp
        · simp [c7heap, hn0, hn1] at hp
  · intro p
    by_cases hp0 : p = 0
    · subst hp0; decide
    · by_cases hp1 : p = 1
      · subst hp1; decide
      · simp [c7heap, hp0, hp1]

/-- Witness for the amended C7: appending a fresh node preserves the
invariant, with the expected concrete result. -/
theorem c7_mutation_preserves_invariants_witness :
    WF c7heap ∧ WF c7res
    ∧ (c7res 0).childNodes = [1, 2] ∧ (c7res 2).parentNode = some 0 :=
  ⟨c7heap_WF,
   (c7_mutation_preserves_invariants c7heap c7heap_WF).1 0 2 c7res rfl,
   by decide, by decide⟩

end MiniDom

